import Mathlib

/-!
acyViewer: prefetch cache, fetch pool and navigation history

A shallow embedding of `MainWindow` (src/acyViewer-cpp/src/mainwindow.cpp) and of the
fetch-unit life cycle of `ImageFetcher` (src/acyViewer-cpp/src/imagefetcher.cpp).

Conventions of the embedding
* `int` / `qsizetype` values are `Int`; the sizes involved are far below any overflow.
* A `QPixmap` is its picture content plus its device pixel ratio, both opaque numbers;
  a `QByteArray` is a list of numbers; a `QUrl` / `QString` is a `String`.
* An `ImageFetcher*` is a number handed out by an allocation counter (`nextFetcher`),
  which models that `new ImageFetcher` returns a pointer to a fresh object.
* Widgets are reduced to what the slots write and test: the content of `m_imageLabel`,
  the running flag of `m_loadingMovie`, the enabled flags of the two buttons, the
  status-bar message, the modal message boxes shown so far and the arguments of the
  `displayImage` calls made so far.
* An out-of-range `m_history[i]` is undefined behaviour in the source; the slots that
  index the history return `Option`, with `none` for that case.
* Every slot runs to completion on the GUI thread; the nested event loop of a modal
  dialog is not modelled.
-/

namespace AcyViewer

/-! ## Data model -/

/-- The `QPixmap` of the source: picture content and device pixel ratio. -/
structure Pixmap where
  bits : Nat
  dpr : Nat
deriving DecidableEq

/-- The struct `MainWindow::ImageInfo` of mainwindow.h. -/
structure ImageInfo where
  pixmap : Pixmap
  imageData : List Nat
  imageUrl : String
deriving DecidableEq

/-- What `m_imageLabel` shows. `movie` is `m_loadingMovie`, the only movie ever set. -/
inductive Label where
  | empty
  | text (s : String)
  | movie
  | pixmap (p : Pixmap)
deriving DecidableEq

/-- The messages the slots put on the status bar. -/
inductive StatusMsg where
  | ready
  | history (position size : Int)
  | showingFromCache (cacheSize maxCacheSize : Int)
  | cacheEmptyFetching
  | firstImage
  | noMoreHistory
  | settingsUpdated
  | settingsSaved (cacheSize maxCacheSize : Int)
  | cacheSuccess (cacheSize maxCacheSize : Int)
  | error (errorString : String)
deriving DecidableEq

/-- The text of a status-bar message, as the source spells it. -/
def StatusMsg.render : StatusMsg → String
  | .ready => "Ready | Shortcuts: A, Space/D, Ctrl+S, Ctrl+,"
  | .history p n => "History: " ++ toString p ++ "/" ++ toString n
  | .showingFromCache c m =>
      "Showing from cache. Cache size: " ++ toString c ++ "/" ++ toString m
  | .cacheEmptyFetching => "Cache is empty, fetching new image..."
  | .firstImage => "This is the first image in history."
  | .noMoreHistory => "No more history."
  | .settingsUpdated => "Settings updated, re-initializing cache..."
  | .settingsSaved c m => "Settings saved. Cache: " ++ toString c ++ "/" ++ toString m
  | .cacheSuccess c m => "Cache success. Cache: " ++ toString c ++ "/" ++ toString m
  | .error e => "Error: " ++ e

/-- The members of `MainWindow` (mainwindow.h) and the widget state its slots use. -/
structure MainWindow where
  m_apiUrl : String
  m_maxCacheSize : Int
  m_downloadDir : String
  m_currentTheme : String
  m_imageCache : List ImageInfo
  m_history : List ImageInfo
  m_currentHistoryIndex : Int
  m_fetchers : List Nat
  nextFetcher : Nat
  imageLabel : Label
  movieRunning : Bool
  downloadEnabled : Bool
  copyEnabled : Bool
  status : StatusMsg
  messageBoxes : List String
  displayed : List ImageInfo
  devicePixelRatioF : Nat
deriving DecidableEq

/-- The values read back from an accepted `SettingsDialog`. -/
structure SettingsDialog where
  apiUrl : String
  maxCacheSize : Int
  downloadDir : String
  theme : String
deriving DecidableEq

/-! ## Fetch pool: `fillCache` -/

/-- One iteration of the loop of `fillCache`: a new `ImageFetcher` is created, wired and
appended to `m_fetchers`, and its thread is started. -/
def launchFetcher (w : MainWindow) : MainWindow :=
  { w with m_fetchers := w.m_fetchers ++ [w.nextFetcher], nextFetcher := w.nextFetcher + 1 }

/-- The loop `for (int i = 0; i < needed; ++i)` of `fillCache`, `n` iterations left. -/
def fillLoop : Nat → MainWindow → MainWindow
  | 0, w => w
  | n + 1, w => fillLoop n (launchFetcher w)

/-- The local `needed` of `fillCache`. -/
def needed (w : MainWindow) : Int :=
  w.m_maxCacheSize - (w.m_imageCache.length : Int) - (w.m_fetchers.length : Int)

/-- `MainWindow::fillCache`. -/
def fillCache (w : MainWindow) : MainWindow :=
  fillLoop (needed w).toNat w

/-- The handler `fillCache` connects to `QObject::destroyed` of a fetcher:
`m_fetchers.removeOne(fetcher)`. -/
def onFetcherDestroyed (w : MainWindow) (fetcher : Nat) : MainWindow :=
  { w with m_fetchers := w.m_fetchers.erase fetcher }

/-! ## Display helpers -/

/-- `MainWindow::startLoadingAnimation`. -/
def startLoadingAnimation (w : MainWindow) : MainWindow :=
  { w with imageLabel := Label.movie, movieRunning := true }

/-- `MainWindow::stopLoadingAnimation`: the movie is stopped and `setMovie(nullptr)`
clears the label. -/
def stopLoadingAnimation (w : MainWindow) : MainWindow :=
  { w with movieRunning := false, imageLabel := Label.empty }

/-- `MainWindow::displayImage`; the three arguments are passed as one record. The scaling
of `fitPixmapNoCrop` is left out: the label is recorded as showing the given pixmap. -/
def displayImage (w : MainWindow) (info : ImageInfo) : MainWindow :=
  { stopLoadingAnimation w with
    imageLabel := Label.pixmap info.pixmap
    downloadEnabled := true
    copyEnabled := true
    displayed := w.displayed ++ [info] }

/-- The indexing `m_history[i]`: `none` stands for an index out of range. -/
def histAt (h : List ImageInfo) (i : Int) : Option ImageInfo :=
  if 0 ≤ i then h[i.toNat]? else none

/-- `QVector::remove(i, n)`. -/
def removeRange (h : List ImageInfo) (i n : Nat) : List ImageInfo :=
  h.take i ++ h.drop (i + n)

/-! ## `showNextImage` -/

/-- First branch of `showNextImage` (lines 275-278): replay of the next history record. -/
def showNextFromHistory (w : MainWindow) : Option MainWindow :=
  let w1 := { w with m_currentHistoryIndex := w.m_currentHistoryIndex + 1 }
  match histAt w1.m_history w1.m_currentHistoryIndex with
  | none => none
  | some info =>
    some { displayImage w1 info with
           status := StatusMsg.history (w1.m_currentHistoryIndex + 1) w1.m_history.length }

/-- The condition of line 283-285, with the short-circuit evaluation of the source;
`none` when the `m_history[m_currentHistoryIndex + 1]` it evaluates is out of range. -/
def appendCondition (w : MainWindow) (info : ImageInfo) : Option Bool :=
  if w.m_currentHistoryIndex = -1 then some true
  else if w.m_currentHistoryIndex < (w.m_history.length : Int) - 1 then
    match histAt w.m_history (w.m_currentHistoryIndex + 1) with
    | none => none
    | some next => some (decide (next.imageUrl ≠ info.imageUrl))
  else if w.m_currentHistoryIndex = (w.m_history.length : Int) - 1 then
    match w.m_history.getLast? with
    | none => some true
    | some last => some (decide (last.imageUrl ≠ info.imageUrl))
  else some false

/-- Lines 287-291: truncate the history after the cursor, append, move the cursor to the
last index. -/
def appendToHistory (w : MainWindow) (info : ImageInfo) : MainWindow :=
  let w1 :=
    if w.m_currentHistoryIndex ≠ -1 ∧ w.m_currentHistoryIndex < (w.m_history.length : Int) - 1 then
      { w with
        m_history := removeRange w.m_history (w.m_currentHistoryIndex + 1).toNat
          ((w.m_history.length : Int) - (w.m_currentHistoryIndex + 1)).toNat }
    else w
  let h := w1.m_history ++ [info]
  { w1 with m_history := h, m_currentHistoryIndex := (h.length : Int) - 1 }

/-- Second branch of `showNextImage` up to the call of `fillCache` (lines 280-294). The
branch is entered with a non-empty cache only; `dequeue` on an empty one is `none`. -/
def showNextFromCachePre (w : MainWindow) : Option MainWindow :=
  match w.m_imageCache with
  | [] => none
  | info :: rest =>
    let w1 := displayImage { w with m_imageCache := rest } info
    match appendCondition w1 info with
    | none => none
    | some c =>
      let w2 := if c then appendToHistory w1 info else w1
      some { w2 with
             status := StatusMsg.showingFromCache w2.m_imageCache.length w2.m_maxCacheSize }

/-- Second branch of `showNextImage` (lines 280-295). -/
def showNextFromCache (w : MainWindow) : Option MainWindow :=
  (showNextFromCachePre w).map fillCache

/-- Third branch of `showNextImage` up to the call of `fillCache` (lines 297-298). -/
def showNextLoadingPre (w : MainWindow) : MainWindow :=
  { startLoadingAnimation w with status := StatusMsg.cacheEmptyFetching }

/-- The text of the message box of line 301. -/
def allSourcesFailedText : String :=
  "All image sources failed or cache is empty.\nPlease check your network connection and API URL settings."

/-- Lines 300-304: the test made after `fillCache` and the exhausted report. -/
def reportIfExhausted (w : MainWindow) : MainWindow :=
  if w.m_fetchers.isEmpty ∧ w.m_imageCache.isEmpty then
    { stopLoadingAnimation { w with messageBoxes := w.messageBoxes ++ [allSourcesFailedText] } with
      imageLabel := Label.text "No available images." }
  else w

/-- Third branch of `showNextImage` (lines 297-304). -/
def showNextLoading (w : MainWindow) : MainWindow :=
  reportIfExhausted (fillCache (showNextLoadingPre w))

/-- `MainWindow::showNextImage`. -/
def showNextImage (w : MainWindow) : Option MainWindow :=
  if w.m_currentHistoryIndex ≠ -1 ∧ w.m_currentHistoryIndex < (w.m_history.length : Int) - 1 then
    showNextFromHistory w
  else if ¬ w.m_imageCache.isEmpty then
    showNextFromCache w
  else
    some (showNextLoading w)

/-- `MainWindow::showPreviousImage`. -/
def showPreviousImage (w : MainWindow) : Option MainWindow :=
  if ¬ w.m_history.isEmpty ∧ w.m_currentHistoryIndex > 0 then
    let w1 := { w with m_currentHistoryIndex := w.m_currentHistoryIndex - 1 }
    match histAt w1.m_history w1.m_currentHistoryIndex with
    | none => none
    | some info =>
      some { displayImage w1 info with
             status := StatusMsg.history (w1.m_currentHistoryIndex + 1) w1.m_history.length }
  else if ¬ w.m_history.isEmpty ∧ w.m_currentHistoryIndex = 0 then
    some { w with status := StatusMsg.firstImage }
  else
    some { w with status := StatusMsg.noMoreHistory }

/-! ## Fetch callbacks -/

/-- Lines 403-408 of `onImageFetched`: the record is enqueued when the cache has room. -/
def offerToCache (w : MainWindow) (pixmap : Pixmap) (imageData : List Nat) (imageUrl : String) :
    MainWindow :=
  if (w.m_imageCache.length : Int) < w.m_maxCacheSize then
    let highDpiPixmap : Pixmap := { pixmap with dpr := w.devicePixelRatioF }
    let cache := w.m_imageCache ++ [{ pixmap := highDpiPixmap, imageData := imageData, imageUrl := imageUrl }]
    { w with m_imageCache := cache, status := StatusMsg.cacheSuccess cache.length w.m_maxCacheSize }
  else w

/-- `onImageFetched` up to its final call of `fillCache` (lines 403-411). -/
def onImageFetchedPre (w : MainWindow) (pixmap : Pixmap) (imageData : List Nat)
    (imageUrl : String) : Option MainWindow :=
  let w1 := offerToCache w pixmap imageData imageUrl
  if w1.imageLabel = Label.movie then showNextImage w1 else some w1

/-- `MainWindow::onImageFetched`. -/
def onImageFetched (w : MainWindow) (pixmap : Pixmap) (imageData : List Nat)
    (imageUrl : String) : Option MainWindow :=
  (onImageFetchedPre w pixmap imageData imageUrl).map fillCache

/-- `onFetchError` up to its call of `fillCache` (lines 417-422). -/
def onFetchErrorPre (w : MainWindow) (errorString : String) : MainWindow :=
  let w1 := { w with status := StatusMsg.error errorString }
  if w1.imageLabel = Label.movie ∧ w1.m_imageCache.isEmpty then
    { stopLoadingAnimation w1 with imageLabel := Label.text ("Failed to get image:\n" ++ errorString) }
  else w1

/-- `MainWindow::onFetchError`. -/
def onFetchError (w : MainWindow) (errorString : String) : MainWindow :=
  fillCache (onFetchErrorPre w errorString)

/-! ## Settings -/

/-- Lines 365-378 of `openSettingsDialog`: the four members take the dialog values. Saving
to `QSettings` and re-applying the theme have no effect on the modelled state. -/
def takeDialogValues (w : MainWindow) (d : SettingsDialog) : MainWindow :=
  { w with
    m_apiUrl := d.apiUrl
    m_maxCacheSize := d.maxCacheSize
    m_downloadDir := d.downloadDir
    m_currentTheme := d.theme }

/-- Lines 381-393 of `openSettingsDialog`: everything before the call of `fillCache` in
the branch taken when the API URL or the cache size changed. -/
def resetForSettings (w : MainWindow) : MainWindow :=
  startLoadingAnimation
    { w with
      status := StatusMsg.settingsUpdated
      m_fetchers := []
      m_imageCache := []
      m_history := []
      m_currentHistoryIndex := -1
      downloadEnabled := false
      copyEnabled := false }

/-- The test of line 380. -/
def settingsChanged (w : MainWindow) (d : SettingsDialog) : Bool :=
  decide (d.apiUrl ≠ w.m_apiUrl ∨ d.maxCacheSize ≠ w.m_maxCacheSize)

/-- `MainWindow::openSettingsDialog`; `accepted` is the outcome of `dialog.exec()` and
`d` holds the values of the dialog. -/
def openSettingsDialog (w : MainWindow) (accepted : Bool) (d : SettingsDialog) : MainWindow :=
  if accepted then
    let w1 := takeDialogValues w d
    let w2 := if settingsChanged w d then fillCache (resetForSettings w1) else w1
    { w2 with
      messageBoxes := w2.messageBoxes ++ ["Settings have been saved."]
      status := StatusMsg.settingsSaved w2.m_imageCache.length w2.m_maxCacheSize }
  else w

/-! ## Construction -/

/-- The window after `loadSettings`, `initUI`, `createActions`, `createMenus` and
`applyTheme`, right before the constructor calls `fillCache`. The four settings and the
device pixel ratio of the screen are parameters. -/
def MainWindow.beforeFill (apiUrl : String) (maxCacheSize : Int) (downloadDir theme : String)
    (devicePixelRatioF : Nat) : MainWindow :=
  { m_apiUrl := apiUrl
    m_maxCacheSize := maxCacheSize
    m_downloadDir := downloadDir
    m_currentTheme := theme
    m_imageCache := []
    m_history := []
    m_currentHistoryIndex := -1
    m_fetchers := []
    nextFetcher := 0
    imageLabel := Label.text "Loading image..."
    movieRunning := false
    downloadEnabled := false
    copyEnabled := false
    status := StatusMsg.ready
    messageBoxes := []
    displayed := []
    devicePixelRatioF := devicePixelRatioF }

/-- The constructor `MainWindow::MainWindow`. -/
def MainWindow.new (apiUrl : String) (maxCacheSize : Int) (downloadDir theme : String)
    (devicePixelRatioF : Nat) : MainWindow :=
  fillCache (MainWindow.beforeFill apiUrl maxCacheSize downloadDir theme devicePixelRatioF)

/-! ## The event loop

The slots are run by the GUI thread one at a time. A fetch unit lives on its own thread:
`ImageFetcher::onReplyFinished` emits `imageFetched` or `fetchError` and then `finished`,
which schedules the deletion of the unit; its `destroyed` signal reaches the window later,
as an event of its own. A unit that has reported its result and is not yet removed from
`m_fetchers` is recorded in `finished`. -/

/-- The window and the units that have reported their result but are still in
`m_fetchers`. -/
structure Sys where
  win : MainWindow
  finished : List Nat
deriving DecidableEq

/-- What the event loop delivers to the window. -/
inductive Event where
  | showNext
  | showPrevious
  | fetched (fetcher : Nat) (pixmap : Pixmap) (imageData : List Nat) (imageUrl : String)
  | fetchFailed (fetcher : Nat) (errorString : String)
  | destroyed (fetcher : Nat)
  | settings (d : SettingsDialog)
deriving DecidableEq

/-- One event. `none` when the event cannot occur in this state (a result from a unit that
is not running, the destruction of a unit that has not finished, a dialog value outside
the range 1..20 of the spin box) or when the slot indexes the history out of range. -/
def step (s : Sys) : Event → Option Sys
  | Event.showNext => (showNextImage s.win).map fun w => { s with win := w }
  | Event.showPrevious => (showPreviousImage s.win).map fun w => { s with win := w }
  | Event.fetched f p d u =>
    if f ∈ s.win.m_fetchers ∧ f ∉ s.finished then
      (onImageFetched s.win p d u).map fun w => { win := w, finished := f :: s.finished }
    else none
  | Event.fetchFailed f e =>
    if f ∈ s.win.m_fetchers ∧ f ∉ s.finished then
      some { win := onFetchError s.win e, finished := f :: s.finished }
    else none
  | Event.destroyed f =>
    if f ∈ s.finished then
      some { win := onFetcherDestroyed s.win f, finished := s.finished.erase f }
    else none
  | Event.settings d =>
    if 1 ≤ d.maxCacheSize ∧ d.maxCacheSize ≤ 20 then
      some { win := openSettingsDialog s.win true d
             finished := if settingsChanged s.win d then [] else s.finished }
    else none

/-- A sequence of events, first to last. -/
def run (s : Sys) : List Event → Option Sys
  | [] => some s
  | e :: es => (step s e).bind fun s1 => run s1 es

/-- The system right after the constructor of the window. -/
def Sys.init (apiUrl : String) (maxCacheSize : Int) (downloadDir theme : String)
    (devicePixelRatioF : Nat) : Sys :=
  { win := MainWindow.new apiUrl maxCacheSize downloadDir theme devicePixelRatioF
    finished := [] }

/-- The states reached from an initial state with a capacity in 1..20. -/
def Reachable (s : Sys) : Prop :=
  ∃ (apiUrl : String) (maxCacheSize : Int) (downloadDir theme : String) (dpr : Nat)
    (es : List Event),
    1 ≤ maxCacheSize ∧ maxCacheSize ≤ 20 ∧
      run (Sys.init apiUrl maxCacheSize downloadDir theme dpr) es = some s

/-- The number of units of `m_fetchers` that have not reported a result yet. -/
def running (s : Sys) : Nat :=
  s.win.m_fetchers.countP fun f => decide (f ∉ s.finished)

/-- The state in which `showNextImage`, called in `w`, calls `fillCache`; `none` when it
does not call it (history replay, or an out-of-range index before the call). -/
def showNextFillSite (w : MainWindow) : Option MainWindow :=
  if w.m_currentHistoryIndex ≠ -1 ∧ w.m_currentHistoryIndex < (w.m_history.length : Int) - 1 then
    none
  else if ¬ w.m_imageCache.isEmpty then
    showNextFromCachePre w
  else
    some (showNextLoadingPre w)

/-- The states in which `fillCache` is called: by the constructor, by `showNextImage`
(called by the user, or by `onImageFetched` while loading), at the end of
`onImageFetched` and of `onFetchError`, and by `openSettingsDialog`. -/
inductive FillCacheCall : Sys → Prop where
  | ofConstructor (apiUrl : String) (maxCacheSize : Int) (downloadDir theme : String)
      (dpr : Nat) (h1 : 1 ≤ maxCacheSize) (h20 : maxCacheSize ≤ 20) :
      FillCacheCall
        { win := MainWindow.beforeFill apiUrl maxCacheSize downloadDir theme dpr, finished := [] }
  | ofShowNext (r : Sys) (w : MainWindow) (hr : Reachable r)
      (hw : showNextFillSite r.win = some w) :
      FillCacheCall { win := w, finished := r.finished }
  | ofFetchedShowNext (r : Sys) (f : Nat) (p : Pixmap) (d : List Nat) (u : String)
      (w : MainWindow) (hr : Reachable r) (hf : f ∈ r.win.m_fetchers) (hn : f ∉ r.finished)
      (hl : (offerToCache r.win p d u).imageLabel = Label.movie)
      (hw : showNextFillSite (offerToCache r.win p d u) = some w) :
      FillCacheCall { win := w, finished := f :: r.finished }
  | ofFetched (r : Sys) (f : Nat) (p : Pixmap) (d : List Nat) (u : String)
      (w : MainWindow) (hr : Reachable r) (hf : f ∈ r.win.m_fetchers) (hn : f ∉ r.finished)
      (hw : onImageFetchedPre r.win p d u = some w) :
      FillCacheCall { win := w, finished := f :: r.finished }
  | ofFetchFailed (r : Sys) (f : Nat) (e : String)
      (hr : Reachable r) (hf : f ∈ r.win.m_fetchers) (hn : f ∉ r.finished) :
      FillCacheCall { win := onFetchErrorPre r.win e, finished := f :: r.finished }
  | ofSettings (r : Sys) (d : SettingsDialog) (hr : Reachable r)
      (h1 : 1 ≤ d.maxCacheSize) (h20 : d.maxCacheSize ≤ 20)
      (hc : settingsChanged r.win d = true) :
      FillCacheCall { win := resetForSettings (takeDialogValues r.win d), finished := [] }

/-- `n` calls of `showNextImage` in a row. -/
def showNextTimes : Nat → MainWindow → Option MainWindow
  | 0, w => some w
  | n + 1, w => (showNextImage w).bind (showNextTimes n)

/-- The history after the records `rs` were shown from the cache one after the other with
the cursor at the end: a record is appended unless its URL is that of the last entry. -/
def appendShown : List ImageInfo → List ImageInfo → List ImageInfo
  | h, [] => h
  | h, r :: rs =>
    appendShown
      (match h.getLast? with
       | none => h ++ [r]
       | some last => if last.imageUrl ≠ r.imageUrl then h ++ [r] else h)
      rs

/-- Each record of the list has a URL other than that of the record before it; `last` is
the URL before the first record, if there is one. -/
def urlsChange : Option String → List ImageInfo → Prop
  | _, [] => True
  | last, r :: rs => last ≠ some r.imageUrl ∧ urlsChange (some r.imageUrl) rs

/-- Accepted dialog values that raise the capacity to 5. -/
def capacityFive : SettingsDialog :=
  { apiUrl := "https://www.acy.moe/api/r18", maxCacheSize := 5, downloadDir := "Pictures",
    theme := "Dark" }

/-- Accepted dialog values that keep endpoint and capacity of `scenarioC` and change the
theme and the download directory only. -/
def themeOnly : SettingsDialog :=
  { apiUrl := "https://www.acy.moe/api/r18", maxCacheSize := 3, downloadDir := "Downloads",
    theme := "Light" }

/-! ## Invariants -/

/-- The cursor invariant of the history: the cursor is −1 or an index of the history. -/
def CursorOk (w : MainWindow) : Prop :=
  w.m_currentHistoryIndex = -1 ∨
    (0 ≤ w.m_currentHistoryIndex ∧ w.m_currentHistoryIndex < (w.m_history.length : Int))

/-- The capacity is in 1..20 and the cache holds at most that many records. -/
def CacheOk (w : MainWindow) : Prop :=
  1 ≤ w.m_maxCacheSize ∧ w.m_maxCacheSize ≤ 20 ∧
    (w.m_imageCache.length : Int) ≤ w.m_maxCacheSize

/-- The bookkeeping of the fetch pool: the units of `m_fetchers` are distinct and were
handed out by the allocation counter, the finished units are distinct units of
`m_fetchers`, and the cache together with the units still running fits the capacity. -/
def PoolOk (s : Sys) : Prop :=
  s.win.m_fetchers.Nodup ∧ (∀ f ∈ s.win.m_fetchers, f < s.win.nextFetcher) ∧
    s.finished.Nodup ∧ (∀ f ∈ s.finished, f ∈ s.win.m_fetchers) ∧
    (s.win.m_imageCache.length : Int) + (running s : Int) ≤ s.win.m_maxCacheSize

/-- The three invariants together. -/
def Inv (s : Sys) : Prop :=
  CacheOk s.win ∧ CursorOk s.win ∧ PoolOk s

/-! ## Concrete runs -/

/-- The initial system with capacity `c`, the default endpoint, and a screen of device
pixel ratio 2. -/
def startWith (c : Int) : Sys :=
  Sys.init "https://www.acy.moe/api/r18" c "Pictures" "Dark" 2

/-- The record the cache stores for picture `n` fetched from `url` on that screen. -/
def image (n : Nat) (url : String) : ImageInfo :=
  { pixmap := { bits := n, dpr := 2 }, imageData := [n], imageUrl := url }

/-- Unit `f` reports picture `n`, fetched from `url`. -/
def arrives (f n : Nat) (url : String) : Event :=
  Event.fetched f { bits := n, dpr := 1 } [n] url

/-- The state after the events `es`; the start state when they cannot all occur. -/
def runFrom (s : Sys) (es : List Event) : Sys :=
  (run s es).getD s

/-- A run with every kind of event: two results, a failure, removals, navigation in both
directions and a change of capacity from 2 to 3. -/
def tourEvents : List Event :=
  [arrives 0 1 "u1", Event.showNext, Event.destroyed 0, Event.fetchFailed 1 "timeout",
   arrives 2 2 "u2", Event.destroyed 1, Event.destroyed 2, Event.showNext,
   Event.showPrevious,
   Event.settings { apiUrl := "https://www.acy.moe/api/r18", maxCacheSize := 3,
                    downloadDir := "Pictures", theme := "Light" },
   arrives 5 3 "u3", arrives 6 4 "u4"]

/-- The state after `tourEvents` with capacity 2. -/
def tourEnd : Sys :=
  runFrom (startWith 2) tourEvents

/-- Capacity 3, three results in the cache, nothing shown yet. -/
def scenarioB : Sys :=
  runFrom (startWith 3) [arrives 0 1 "u1", arrives 1 2 "u2", arrives 2 3 "u3"]

/-- History of three records with the cursor on the last one. -/
def scenarioC : Sys :=
  runFrom scenarioB [Event.showNext, Event.showNext, Event.showNext]

/-- After stepping back twice from `scenarioC`. -/
def scenarioCBack : Sys :=
  runFrom scenarioC [Event.showPrevious, Event.showPrevious]

/-- History of two records with the cursor on the first one, and a record with a third
URL at the front of the cache. -/
def scenarioD : Sys :=
  runFrom (startWith 2)
    [arrives 0 1 "u1", Event.destroyed 0, Event.showNext, arrives 1 2 "u2", Event.showNext,
     arrives 2 4 "u4", Event.showPrevious]

/-- Capacity 2: both units launched by the constructor have failed and have been removed
from `m_fetchers`. -/
def scenarioE : Sys :=
  runFrom (startWith 2)
    [Event.fetchFailed 0 "timeout", Event.fetchFailed 1 "timeout", Event.destroyed 0,
     Event.destroyed 1]

/-- Capacity 2: two results with the same URL in the cache, nothing shown yet. -/
def scenarioSameUrl : Sys :=
  runFrom (startWith 2) [arrives 0 1 "u", arrives 1 2 "u"]

/-- Capacity 1: the state in which `onImageFetched`, handling the result of unit 0 right
after start-up, calls `fillCache`. -/
def fetchedCall : Sys :=
  { win := offerToCache (startWith 1).win { bits := 1, dpr := 1 } [1] "u1", finished := [0] }

/-! ## Loading state, retry and the current image -/

/-- While the loading movie is on the label, the cache is empty and the cursor is not
before the last index of the history. -/
def LoadingOk (w : MainWindow) : Prop :=
  w.imageLabel = Label.movie →
    w.m_imageCache = [] ∧
      ¬ (w.m_currentHistoryIndex ≠ -1 ∧
        w.m_currentHistoryIndex < (w.m_history.length : Int) - 1)

/-- The record `onImageFetched` builds from the three values of the signal and enqueues
(lines 404-406): the pixmap carries the device pixel ratio of the window. -/
def fetchedRecord (w : MainWindow) (pixmap : Pixmap) (imageData : List Nat)
    (imageUrl : String) : ImageInfo :=
  { pixmap := { pixmap with dpr := w.devicePixelRatioF }, imageData := imageData,
    imageUrl := imageUrl }

/-- The bytes `downloadCurrentImage` writes to the chosen file (lines 324-342):
`m_history[m_currentHistoryIndex].imageData`; `none` when the slot reports that there is
no current image. -/
def downloadedBytes (w : MainWindow) : Option (List Nat) :=
  if w.m_currentHistoryIndex = -1 ∨ w.m_history.isEmpty then none
  else (histAt w.m_history w.m_currentHistoryIndex).map fun r => r.imageData

/-- The pixmap `copyImageToClipboard` puts on the clipboard (lines 353-354):
`m_history[m_currentHistoryIndex].pixmap`; `none` when the slot reports that there is no
image to copy. -/
def clipboardPixmap (w : MainWindow) : Option Pixmap :=
  if w.m_currentHistoryIndex ≠ -1 ∧ ¬ w.m_history.isEmpty then
    (histAt w.m_history w.m_currentHistoryIndex).map fun r => r.pixmap
  else none

/-- Capacity 2, waiting for an image: after `scenarioE` the user asked for the next
image, the loading movie runs and units 2 and 3 are fetching. -/
def scenarioLoading : Sys :=
  runFrom scenarioE [Event.showNext]

/-- Capacity 1 right after start-up: the cache is empty and unit 0 is fetching. -/
def scenarioOneUnit : Sys :=
  startWith 1

/-- Capacity 1: unit 0 has failed and has been removed from `m_fetchers`. -/
def scenarioAfterFailure : Sys :=
  runFrom scenarioOneUnit [Event.fetchFailed 0 "timeout", Event.destroyed 0]

/-- The two records of `scenarioSameUrl` have been shown one after the other. -/
def scenarioSameUrlShown : Sys :=
  runFrom scenarioSameUrl [Event.showNext, Event.showNext]

/-! # Theorems -/

/-! ## `fillCache` -/

theorem fillLoop_eq (n : Nat) (w : MainWindow) :
    fillLoop n w =
      { w with
        m_fetchers := w.m_fetchers ++ List.range' w.nextFetcher n
        nextFetcher := w.nextFetcher + n } := by
  induction n generalizing w with
  | zero => simp [fillLoop]
  | succ n ih =>
    simp only [fillLoop, ih, launchFetcher, List.range'_succ, List.append_assoc,
      List.singleton_append]
    congr 1
    omega

theorem fillCache_eq (w : MainWindow) :
    fillCache w =
      { w with
        m_fetchers := w.m_fetchers ++ List.range' w.nextFetcher (needed w).toNat
        nextFetcher := w.nextFetcher + (needed w).toNat } := by
  simp [fillCache, fillLoop_eq]

theorem needed_fillCache (w : MainWindow) : (needed (fillCache w)).toNat = 0 := by
  simp only [fillCache_eq, needed, List.length_append, List.length_range']
  omega

/-- C7: `fillCache` launches exactly `max(0, m_maxCacheSize − size(m_imageCache) −
size(m_fetchers))` units, each appended to `m_fetchers`, leaves the cache, the history and
the cursor as they are, and a second call right after the first changes nothing. -/
theorem fillCache_idempotent (w : MainWindow) :
    (fillCache w).m_fetchers =
        w.m_fetchers ++ List.range' w.nextFetcher (max 0 (needed w)).toNat ∧
      ((fillCache w).m_fetchers.length : Int) = (w.m_fetchers.length : Int) + max 0 (needed w) ∧
      (fillCache w).m_imageCache = w.m_imageCache ∧
      (fillCache w).m_history = w.m_history ∧
      (fillCache w).m_currentHistoryIndex = w.m_currentHistoryIndex ∧
      (fillCache (fillCache w)).m_fetchers = (fillCache w).m_fetchers ∧
      fillCache (fillCache w) = fillCache w := by
  have h0 : (max 0 (needed w)).toNat = (needed w).toNat := by
    rcases le_total 0 (needed w) with h | h
    · rw [max_eq_right h]
    · rw [max_eq_left h]; simp [Int.toNat_of_nonpos h]
  have h2 : fillCache (fillCache w) = fillCache w := by
    conv_lhs => rw [fillCache_eq (fillCache w), needed_fillCache]
    simp
  refine ⟨by rw [h0, fillCache_eq], ?_, by rw [fillCache_eq], by rw [fillCache_eq],
    by rw [fillCache_eq], by rw [h2], h2⟩
  rw [fillCache_eq]
  simp only [List.length_append, List.length_range']
  omega

/-! ## Frame lemmas -/

theorem histAt_eq_some {h : List ImageInfo} {i : Int} (h0 : 0 ≤ i) (h1 : i < (h.length : Int)) :
    ∃ r, histAt h i = some r := by
  have hlt : i.toNat < h.length := by omega
  exact ⟨h[i.toNat], by simp [histAt, h0, List.getElem?_eq_getElem hlt]⟩

theorem showNextFromHistory_frame {w w1 : MainWindow} (h : showNextFromHistory w = some w1) :
    w1.m_maxCacheSize = w.m_maxCacheSize ∧ w1.m_imageCache = w.m_imageCache ∧
      w1.m_fetchers = w.m_fetchers ∧ w1.nextFetcher = w.nextFetcher ∧
      w1.m_history = w.m_history ∧ w1.m_currentHistoryIndex = w.m_currentHistoryIndex + 1 := by
  unfold showNextFromHistory at h
  simp only at h
  split at h
  · exact absurd h (by simp)
  · cases h
    simp [displayImage, stopLoadingAnimation]

theorem appendToHistory_cursor (w : MainWindow) (info : ImageInfo) :
    (appendToHistory w info).m_currentHistoryIndex =
        ((appendToHistory w info).m_history.length : Int) - 1 ∧
      1 ≤ (appendToHistory w info).m_history.length ∧
      (appendToHistory w info).m_maxCacheSize = w.m_maxCacheSize ∧
      (appendToHistory w info).m_imageCache = w.m_imageCache ∧
      (appendToHistory w info).m_fetchers = w.m_fetchers ∧
      (appendToHistory w info).nextFetcher = w.nextFetcher := by
  unfold appendToHistory
  simp only
  split <;> simp

theorem showNextFromCachePre_frame {w w1 : MainWindow} (h : showNextFromCachePre w = some w1) :
    w1.m_maxCacheSize = w.m_maxCacheSize ∧ w1.m_imageCache = w.m_imageCache.tail ∧
      w1.m_fetchers = w.m_fetchers ∧ w1.nextFetcher = w.nextFetcher ∧
      w.m_imageCache ≠ [] := by
  unfold showNextFromCachePre at h
  split at h
  · exact absurd h (by simp)
  · rename_i info rest hc
    simp only at h
    split at h
    · exact absurd h (by simp)
    · cases h
      rename_i c _
      cases c
      · simp [displayImage, stopLoadingAnimation, hc]
      · have := appendToHistory_cursor (displayImage { w with m_imageCache := rest } info) info
        simp [displayImage, stopLoadingAnimation, hc] at this ⊢
        simp [this]

theorem reportIfExhausted_frame (w : MainWindow) :
    (reportIfExhausted w).m_maxCacheSize = w.m_maxCacheSize ∧
      (reportIfExhausted w).m_imageCache = w.m_imageCache ∧
      (reportIfExhausted w).m_fetchers = w.m_fetchers ∧
      (reportIfExhausted w).nextFetcher = w.nextFetcher ∧
      (reportIfExhausted w).m_history = w.m_history ∧
      (reportIfExhausted w).m_currentHistoryIndex = w.m_currentHistoryIndex := by
  unfold reportIfExhausted
  split <;> simp [stopLoadingAnimation]

/-! ## Preservation of the pool bookkeeping -/

theorem running_le_length (s : Sys) : running s ≤ s.win.m_fetchers.length :=
  List.countP_le_length _

theorem poolOk_of_frame {w w1 : MainWindow} {fin : List Nat}
    (h : PoolOk { win := w, finished := fin })
    (hm : w1.m_maxCacheSize = w.m_maxCacheSize) (hf : w1.m_fetchers = w.m_fetchers)
    (hn : w1.nextFetcher = w.nextFetcher)
    (hc : w1.m_imageCache.length ≤ w.m_imageCache.length) :
    PoolOk { win := w1, finished := fin } := by
  obtain ⟨a, b, c, d, e⟩ := h
  simp only [running] at e
  refine ⟨by simpa [hf] using a, by simpa [hf, hn] using b, c, by simpa [hf] using d, ?_⟩
  simp only [running, hf, hm]
  omega

theorem poolOk_fillCache {w : MainWindow} {fin : List Nat}
    (h : PoolOk { win := w, finished := fin }) :
    PoolOk { win := fillCache w, finished := fin } := by
  obtain ⟨a, b, c, d, e⟩ := h
  simp only [running] at a b d e
  have hrun : w.m_fetchers.countP (fun f => decide (f ∉ fin)) ≤ w.m_fetchers.length :=
    List.countP_le_length _
  have hnew : (List.range' w.nextFetcher (needed w).toNat).countP (fun f => decide (f ∉ fin))
      ≤ (needed w).toNat := by
    simpa using List.countP_le_length (fun f => decide (f ∉ fin))
      (l := List.range' w.nextFetcher (needed w).toNat)
  rw [fillCache_eq]
  refine ⟨?_, ?_, c, ?_, ?_⟩
  · simp only
    rw [List.nodup_append]
    refine ⟨a, List.nodup_range' _ _, ?_⟩
    intro x hx hx2
    have := b x hx
    simp only [List.mem_range'_1] at hx2
    omega
  · intro f hf
    simp only [List.mem_append, List.mem_range'_1] at hf
    simp only
    rcases hf with hf | hf
    · have := b f hf; omega
    · omega
  · intro f hf
    simp only [List.mem_append]
    exact Or.inl (d f hf)
  · simp only [running, List.countP_append]
    unfold needed at hnew ⊢
    push_cast
    omega

theorem countP_not_mem_cons {l fin : List Nat} {f : Nat} (hf : f ∈ l) (hn : f ∉ fin) :
    l.countP (fun x => decide (x ∉ f :: fin)) + 1 ≤ l.countP (fun x => decide (x ∉ fin)) := by
  induction l with
  | nil => simp at hf
  | cons a l ih =>
    have hmono : l.countP (fun x => decide (x ∉ f :: fin)) ≤
        l.countP (fun x => decide (x ∉ fin)) := by
      apply List.countP_mono_left
      intro x _ hx
      simp only [List.mem_cons, not_or, decide_eq_true_eq] at hx ⊢
      exact hx.2
    rw [List.countP_cons, List.countP_cons]
    by_cases hfa : a = f
    · subst hfa
      have h1 : decide (a ∉ a :: fin) = false := by simp
      have h2 : decide (a ∉ fin) = true := by simp [hn]
      rw [h1, h2]
      simp only [if_true, Bool.false_eq_true, if_false]
      omega
    · have hfl : f ∈ l := by
        rcases List.mem_cons.1 hf with h | h
        · exact absurd h.symm hfa
        · exact h
      have := ih hfl
      have h3 : decide (a ∉ f :: fin) = decide (a ∉ fin) := by simp [hfa]
      rw [h3]
      omega

theorem poolOk_finish {w : MainWindow} {fin : List Nat} {f : Nat}
    (h : PoolOk { win := w, finished := fin }) (hf : f ∈ w.m_fetchers) (hn : f ∉ fin) :
    PoolOk { win := w, finished := f :: fin } ∧
      (w.m_imageCache.length : Int) + (running { win := w, finished := f :: fin } : Int) + 1
        ≤ w.m_maxCacheSize := by
  obtain ⟨a, b, c, d, e⟩ := h
  simp only [running] at a b d e
  have hcount := countP_not_mem_cons hf hn
  refine ⟨⟨a, b, List.nodup_cons.2 ⟨hn, c⟩, ?_, ?_⟩, ?_⟩
  · intro g hg
    rcases List.mem_cons.1 hg with h | h
    · subst h; exact hf
    · exact d g h
  · simp only [running]; omega
  · simp only [running]; omega

theorem poolOk_showNextImage {w w1 : MainWindow} {fin : List Nat}
    (h : PoolOk { win := w, finished := fin }) (hs : showNextImage w = some w1) :
    PoolOk { win := w1, finished := fin } := by
  unfold showNextImage at hs
  split at hs
  · obtain ⟨a, b, c, d, _, _⟩ := showNextFromHistory_frame hs
    exact poolOk_of_frame h a c d (by rw [b])
  · split at hs
    · unfold showNextFromCache at hs
      obtain ⟨w2, hw2, rfl⟩ := Option.map_eq_some'.1 hs
      obtain ⟨a, b, c, d, _⟩ := showNextFromCachePre_frame hw2
      exact poolOk_fillCache (poolOk_of_frame h a c d (by rw [b]; simp))
    · cases hs
      unfold showNextLoading
      have hp : PoolOk { win := fillCache (showNextLoadingPre w), finished := fin } :=
        poolOk_fillCache (poolOk_of_frame h rfl rfl rfl (le_refl _))
      obtain ⟨a, b, c, d, _, _⟩ := reportIfExhausted_frame (fillCache (showNextLoadingPre w))
      exact poolOk_of_frame hp a c d (by rw [b])

theorem offerToCache_frame (w : MainWindow) (p : Pixmap) (d : List Nat) (u : String) :
    (offerToCache w p d u).m_maxCacheSize = w.m_maxCacheSize ∧
      (offerToCache w p d u).m_fetchers = w.m_fetchers ∧
      (offerToCache w p d u).nextFetcher = w.nextFetcher ∧
      (offerToCache w p d u).m_history = w.m_history ∧
      (offerToCache w p d u).m_currentHistoryIndex = w.m_currentHistoryIndex ∧
      (offerToCache w p d u).imageLabel = w.imageLabel ∧
      (offerToCache w p d u).m_imageCache.length ≤ w.m_imageCache.length + 1 ∧
      (((offerToCache w p d u).m_imageCache.length : Int) ≤ w.m_maxCacheSize ∨
        (offerToCache w p d u).m_imageCache = w.m_imageCache) := by
  unfold offerToCache
  split
  · simp; omega
  · simp

theorem poolOk_offerToCache {w : MainWindow} {fin : List Nat} (p : Pixmap) (d : List Nat)
    (u : String) (h : PoolOk { win := w, finished := fin })
    (hroom : (w.m_imageCache.length : Int) + (running { win := w, finished := fin } : Int) + 1
      ≤ w.m_maxCacheSize) :
    PoolOk { win := offerToCache w p d u, finished := fin } := by
  obtain ⟨a, b, c, e, _, _, g, _⟩ := offerToCache_frame w p d u
  obtain ⟨h1, h2, h3, h4, h5⟩ := h
  simp only [running] at hroom h1 h2 h4 h5
  refine ⟨by simpa [b] using h1, by simpa [b, c] using h2, h3, by simpa [b] using h4, ?_⟩
  simp only [running, a, b]
  omega

theorem poolOk_onImageFetched {w w1 : MainWindow} {fin : List Nat} {f : Nat} {p : Pixmap}
    {d : List Nat} {u : String}
    (h : PoolOk { win := w, finished := fin }) (hf : f ∈ w.m_fetchers) (hn : f ∉ fin)
    (hs : onImageFetched w p d u = some w1) :
    PoolOk { win := w1, finished := f :: fin } := by
  unfold onImageFetched at hs
  obtain ⟨w2, hw2, rfl⟩ := Option.map_eq_some'.1 hs
  apply poolOk_fillCache
  obtain ⟨hp, hroom⟩ := poolOk_finish h hf hn
  have ho := poolOk_offerToCache p d u hp hroom
  unfold onImageFetchedPre at hw2
  simp only at hw2
  split at hw2
  · exact poolOk_showNextImage ho hw2
  · cases hw2
    exact ho

theorem onFetchErrorPre_frame (w : MainWindow) (e : String) :
    (onFetchErrorPre w e).m_maxCacheSize = w.m_maxCacheSize ∧
      (onFetchErrorPre w e).m_imageCache = w.m_imageCache ∧
      (onFetchErrorPre w e).m_fetchers = w.m_fetchers ∧
      (onFetchErrorPre w e).nextFetcher = w.nextFetcher ∧
      (onFetchErrorPre w e).m_history = w.m_history ∧
      (onFetchErrorPre w e).m_currentHistoryIndex = w.m_currentHistoryIndex := by
  unfold onFetchErrorPre
  simp only
  split <;> simp [stopLoadingAnimation]

theorem poolOk_onFetchError {w : MainWindow} {fin : List Nat} {f : Nat} (e : String)
    (h : PoolOk { win := w, finished := fin }) (hf : f ∈ w.m_fetchers) (hn : f ∉ fin) :
    PoolOk { win := onFetchError w e, finished := f :: fin } := by
  obtain ⟨a, b, c, d, _, _⟩ := onFetchErrorPre_frame w e
  exact poolOk_fillCache (poolOk_of_frame (poolOk_finish h hf hn).1 a c d (by rw [b]))

theorem poolOk_onFetcherDestroyed {w : MainWindow} {fin : List Nat} {f : Nat}
    (h : PoolOk { win := w, finished := fin }) :
    PoolOk { win := onFetcherDestroyed w f, finished := fin.erase f } := by
  obtain ⟨h1, h2, h3, h4, h5⟩ := h
  simp only [running] at h1 h2 h4 h5
  unfold onFetcherDestroyed
  refine ⟨h1.erase f, ?_, h3.erase f, ?_, ?_⟩
  · intro g hg
    exact h2 g (List.mem_of_mem_erase hg)
  · intro g hg
    rw [h3.mem_erase_iff] at hg
    simp only
    rw [h1.mem_erase_iff]
    exact ⟨hg.1, h4 g hg.2⟩
  · simp only [running]
    have hle : (w.m_fetchers.erase f).countP (fun x => decide (x ∉ fin.erase f)) ≤
        w.m_fetchers.countP (fun x => decide (x ∉ fin)) := by
      calc (w.m_fetchers.erase f).countP (fun x => decide (x ∉ fin.erase f))
          ≤ (w.m_fetchers.erase f).countP (fun x => decide (x ∉ fin)) := by
            apply List.countP_mono_left
            intro x hx hx2
            rw [h1.mem_erase_iff] at hx
            simp only [decide_eq_true_eq, h3.mem_erase_iff, not_and] at hx2 ⊢
            exact hx2 hx.1
        _ ≤ w.m_fetchers.countP (fun x => decide (x ∉ fin)) :=
            (List.erase_sublist f w.m_fetchers).countP_le _
    omega

theorem poolOk_openSettingsDialog {w : MainWindow} {fin : List Nat} (d : SettingsDialog)
    (h : PoolOk { win := w, finished := fin }) (h1 : 1 ≤ d.maxCacheSize) :
    PoolOk { win := openSettingsDialog w true d
             finished := if settingsChanged w d then [] else fin } := by
  unfold openSettingsDialog
  simp only [if_true]
  by_cases hc : settingsChanged w d = true
  · simp only [hc, if_true]
    have hbase : PoolOk { win := resetForSettings (takeDialogValues w d), finished := [] } := by
      refine ⟨?_, ?_, List.nodup_nil, ?_, ?_⟩ <;>
        simp [resetForSettings, takeDialogValues, startLoadingAnimation, running]
      omega
    exact poolOk_of_frame (poolOk_fillCache hbase) rfl rfl rfl (le_refl _)
  · simp only [hc, Bool.false_eq_true, if_false]
    have hmax : d.maxCacheSize = w.m_maxCacheSize := by
      simp only [settingsChanged, ne_eq, decide_eq_true_eq, not_or, not_not] at hc
      exact hc.2
    exact poolOk_of_frame h (by simp [takeDialogValues, hmax]) rfl rfl (le_refl _)

/-! ## Preservation of the cache bound -/

theorem cacheOk_of_frame {w w1 : MainWindow} (h : CacheOk w)
    (hm : w1.m_maxCacheSize = w.m_maxCacheSize)
    (hc : w1.m_imageCache.length ≤ w.m_imageCache.length) : CacheOk w1 := by
  obtain ⟨a, b, c⟩ := h
  refine ⟨by rw [hm]; exact a, by rw [hm]; exact b, ?_⟩
  rw [hm]; omega

theorem cacheOk_fillCache {w : MainWindow} (h : CacheOk w) : CacheOk (fillCache w) :=
  cacheOk_of_frame h (by rw [fillCache_eq]) (by rw [fillCache_eq])

theorem cacheOk_showNextImage {w w1 : MainWindow} (h : CacheOk w)
    (hs : showNextImage w = some w1) : CacheOk w1 := by
  unfold showNextImage at hs
  split at hs
  · obtain ⟨a, b, _⟩ := showNextFromHistory_frame hs
    exact cacheOk_of_frame h a (by rw [b])
  · split at hs
    · unfold showNextFromCache at hs
      obtain ⟨w2, hw2, rfl⟩ := Option.map_eq_some'.1 hs
      obtain ⟨a, b, _⟩ := showNextFromCachePre_frame hw2
      exact cacheOk_fillCache (cacheOk_of_frame h a (by rw [b]; simp))
    · cases hs
      unfold showNextLoading
      obtain ⟨a, b, _⟩ := reportIfExhausted_frame (fillCache (showNextLoadingPre w))
      exact cacheOk_of_frame
        (cacheOk_fillCache (@cacheOk_of_frame w (showNextLoadingPre w) h rfl (le_refl _)))
        a (by rw [b])

theorem cacheOk_offerToCache {w : MainWindow} (p : Pixmap) (d : List Nat) (u : String)
    (h : CacheOk w) : CacheOk (offerToCache w p d u) := by
  obtain ⟨a, _, _, _, _, _, _, g⟩ := offerToCache_frame w p d u
  obtain ⟨h1, h2, h3⟩ := h
  refine ⟨by rw [a]; exact h1, by rw [a]; exact h2, ?_⟩
  rw [a]
  rcases g with g | g
  · exact g
  · rw [g]; exact h3

theorem cacheOk_onImageFetched {w w1 : MainWindow} {p : Pixmap} {d : List Nat} {u : String}
    (h : CacheOk w) (hs : onImageFetched w p d u = some w1) : CacheOk w1 := by
  unfold onImageFetched at hs
  obtain ⟨w2, hw2, rfl⟩ := Option.map_eq_some'.1 hs
  apply cacheOk_fillCache
  unfold onImageFetchedPre at hw2
  simp only at hw2
  split at hw2
  · exact cacheOk_showNextImage (cacheOk_offerToCache p d u h) hw2
  · cases hw2
    exact cacheOk_offerToCache p d u h

theorem cacheOk_onFetchError {w : MainWindow} (e : String) (h : CacheOk w) :
    CacheOk (onFetchError w e) := by
  obtain ⟨a, b, _⟩ := onFetchErrorPre_frame w e
  exact cacheOk_fillCache (cacheOk_of_frame h a (by rw [b]))

theorem cacheOk_openSettingsDialog {w : MainWindow} (d : SettingsDialog) (h : CacheOk w)
    (h1 : 1 ≤ d.maxCacheSize) (h20 : d.maxCacheSize ≤ 20) :
    CacheOk (openSettingsDialog w true d) := by
  unfold openSettingsDialog
  simp only [if_true]
  by_cases hc : settingsChanged w d = true
  · simp only [hc, if_true]
    have hbase : CacheOk (resetForSettings (takeDialogValues w d)) := by
      refine ⟨?_, ?_, ?_⟩ <;>
        simp [resetForSettings, takeDialogValues, startLoadingAnimation, h1, h20]
      omega
    exact cacheOk_of_frame (cacheOk_fillCache hbase) rfl (le_refl _)
  · simp only [hc, Bool.false_eq_true, if_false]
    have hmax : d.maxCacheSize = w.m_maxCacheSize := by
      simp only [settingsChanged, ne_eq, decide_eq_true_eq, not_or, not_not] at hc
      exact hc.2
    exact cacheOk_of_frame h (by simp [takeDialogValues, hmax]) (le_refl _)

/-! ## Preservation of the cursor invariant and absence of out-of-range indexing -/

theorem cursorOk_of_frame {w w1 : MainWindow} (h : CursorOk w)
    (hh : w1.m_history = w.m_history)
    (hi : w1.m_currentHistoryIndex = w.m_currentHistoryIndex) : CursorOk w1 := by
  unfold CursorOk at h ⊢
  rw [hh, hi]; exact h

theorem cursorOk_fillCache {w : MainWindow} (h : CursorOk w) : CursorOk (fillCache w) :=
  cursorOk_of_frame h (by rw [fillCache_eq]) (by rw [fillCache_eq])

theorem showNextFromHistory_some {w : MainWindow} (h : CursorOk w)
    (hc : w.m_currentHistoryIndex ≠ -1 ∧
      w.m_currentHistoryIndex < (w.m_history.length : Int) - 1) :
    ∃ w1, showNextFromHistory w = some w1 ∧ CursorOk w1 := by
  have h0 : 0 ≤ w.m_currentHistoryIndex := by
    rcases h with h | h
    · exact absurd h hc.1
    · exact h.1
  obtain ⟨r, hr⟩ := histAt_eq_some (h := w.m_history) (i := w.m_currentHistoryIndex + 1)
    (by omega) (by omega)
  have hsome : ∃ w1, showNextFromHistory w = some w1 := by
    unfold showNextFromHistory
    simp only [hr]
    exact ⟨_, rfl⟩
  obtain ⟨w1, hw1⟩ := hsome
  refine ⟨w1, hw1, ?_⟩
  obtain ⟨_, _, _, _, a, b⟩ := showNextFromHistory_frame hw1
  unfold CursorOk
  rw [a, b]
  right; omega

theorem showNextFromCachePre_some {w : MainWindow} (h : CursorOk w)
    (hc : w.m_imageCache ≠ []) :
    ∃ w1, showNextFromCachePre w = some w1 ∧ CursorOk w1 := by
  unfold showNextFromCachePre
  cases hcache : w.m_imageCache with
  | nil => exact absurd hcache hc
  | cons info rest =>
    simp only
    have hcur : CursorOk (displayImage { w with m_imageCache := rest } info) :=
      cursorOk_of_frame h rfl rfl
    have hcond : ∃ c, appendCondition (displayImage { w with m_imageCache := rest } info) info
        = some c := by
      unfold appendCondition
      split
      · exact ⟨_, rfl⟩
      · rename_i hne
        split
        · rename_i hlt
          have h0 : 0 ≤ (displayImage { w with m_imageCache := rest } info).m_currentHistoryIndex := by
            rcases hcur with h | h
            · exact absurd h hne
            · exact h.1
          obtain ⟨r, hr⟩ := histAt_eq_some
            (h := (displayImage { w with m_imageCache := rest } info).m_history)
            (i := (displayImage { w with m_imageCache := rest } info).m_currentHistoryIndex + 1)
            (by omega) (by omega)
          rw [hr]
          exact ⟨_, rfl⟩
        · split
          · split <;> exact ⟨_, rfl⟩
          · exact ⟨_, rfl⟩
    obtain ⟨c, hcnd⟩ := hcond
    rw [hcnd]
    refine ⟨_, rfl, ?_⟩
    cases c
    · exact cursorOk_of_frame hcur rfl rfl
    · obtain ⟨a, b, _⟩ := appendToHistory_cursor
        (displayImage { w with m_imageCache := rest } info) info
      unfold CursorOk
      simp only [if_true]
      right
      constructor
      · rw [a]; omega
      · rw [a]; omega

theorem showNextImage_some {w : MainWindow} (h : CursorOk w) :
    ∃ w1, showNextImage w = some w1 ∧ CursorOk w1 := by
  unfold showNextImage
  split
  · rename_i hc
    exact showNextFromHistory_some h hc
  · split
    · rename_i hne
      have hc : w.m_imageCache ≠ [] := by
        intro h0; apply hne; simp [h0]
      obtain ⟨w1, hw1, hcur⟩ := showNextFromCachePre_some h hc
      exact ⟨fillCache w1, by simp [showNextFromCache, hw1], cursorOk_fillCache hcur⟩
    · refine ⟨_, rfl, ?_⟩
      unfold showNextLoading
      obtain ⟨_, _, _, _, a, b⟩ := reportIfExhausted_frame (fillCache (showNextLoadingPre w))
      exact cursorOk_of_frame
        (cursorOk_fillCache (@cursorOk_of_frame w (showNextLoadingPre w) h rfl rfl)) a b

theorem showPreviousImage_some {w : MainWindow} (h : CursorOk w) :
    ∃ w1, showPreviousImage w = some w1 ∧ CursorOk w1 := by
  unfold showPreviousImage
  split
  · rename_i hc
    have hlt : w.m_currentHistoryIndex < (w.m_history.length : Int) := by
      rcases h with h | h
      · omega
      · exact h.2
    obtain ⟨r, hr⟩ := histAt_eq_some (h := w.m_history) (i := w.m_currentHistoryIndex - 1)
      (by omega) (by omega)
    simp only [hr]
    refine ⟨_, rfl, ?_⟩
    unfold CursorOk
    simp only [displayImage, stopLoadingAnimation]
    right; omega
  · split
    · exact ⟨_, rfl, cursorOk_of_frame h rfl rfl⟩
    · exact ⟨_, rfl, cursorOk_of_frame h rfl rfl⟩

theorem onImageFetched_some {w : MainWindow} (p : Pixmap) (d : List Nat) (u : String)
    (h : CursorOk w) : ∃ w1, onImageFetched w p d u = some w1 ∧ CursorOk w1 := by
  obtain ⟨_, _, _, a, b, _⟩ := offerToCache_frame w p d u
  have ho : CursorOk (offerToCache w p d u) := cursorOk_of_frame h a b
  unfold onImageFetched onImageFetchedPre
  simp only
  split
  · obtain ⟨w1, hw1, hcur⟩ := showNextImage_some ho
    exact ⟨fillCache w1, by simp [hw1], cursorOk_fillCache hcur⟩
  · exact ⟨_, rfl, cursorOk_fillCache ho⟩

theorem cursorOk_onFetchError {w : MainWindow} (e : String) (h : CursorOk w) :
    CursorOk (onFetchError w e) := by
  obtain ⟨_, _, _, _, a, b⟩ := onFetchErrorPre_frame w e
  exact cursorOk_fillCache (cursorOk_of_frame h a b)

theorem cursorOk_openSettingsDialog {w : MainWindow} (d : SettingsDialog) (h : CursorOk w) :
    CursorOk (openSettingsDialog w true d) := by
  unfold openSettingsDialog
  simp only [if_true]
  by_cases hc : settingsChanged w d = true
  · simp only [hc, if_true]
    have hbase : CursorOk (resetForSettings (takeDialogValues w d)) := by
      left; simp [resetForSettings, takeDialogValues, startLoadingAnimation]
    exact cursorOk_of_frame (cursorOk_fillCache hbase) rfl rfl
  · simp only [hc, Bool.false_eq_true, if_false]
    exact cursorOk_of_frame h rfl rfl

/-! ## The invariants hold in every reachable state -/

theorem inv_init (apiUrl : String) (c : Int) (dir theme : String) (dpr : Nat)
    (h1 : 1 ≤ c) (h20 : c ≤ 20) : Inv (Sys.init apiUrl c dir theme dpr) := by
  unfold Sys.init MainWindow.new
  refine ⟨cacheOk_fillCache ?_, cursorOk_fillCache ?_, poolOk_fillCache ?_⟩
  · refine ⟨?_, ?_, ?_⟩ <;> simp [MainWindow.beforeFill, h1, h20]
    omega
  · left; rfl
  · refine ⟨?_, ?_, List.nodup_nil, ?_, ?_⟩ <;> simp [MainWindow.beforeFill, running]
    omega

theorem inv_step {s s1 : Sys} {e : Event} (h : Inv s) (hs : step s e = some s1) : Inv s1 := by
  obtain ⟨hcache, hcur, hpool⟩ := h
  cases e with
  | showNext =>
    simp only [step] at hs
    obtain ⟨w, hw, rfl⟩ := Option.map_eq_some'.1 hs
    obtain ⟨w1, hw1, hc1⟩ := showNextImage_some hcur
    rw [hw] at hw1; cases hw1
    exact ⟨cacheOk_showNextImage hcache hw, hc1, poolOk_showNextImage hpool hw⟩
  | showPrevious =>
    simp only [step] at hs
    obtain ⟨w, hw, rfl⟩ := Option.map_eq_some'.1 hs
    obtain ⟨w1, hw1, hc1⟩ := showPreviousImage_some hcur
    rw [hw] at hw1; cases hw1
    have hfr : w.m_maxCacheSize = s.win.m_maxCacheSize ∧ w.m_imageCache = s.win.m_imageCache ∧
        w.m_fetchers = s.win.m_fetchers ∧ w.nextFetcher = s.win.nextFetcher := by
      unfold showPreviousImage at hw
      split at hw
      · simp only at hw
        split at hw
        · exact absurd hw (by simp)
        · cases hw; simp [displayImage, stopLoadingAnimation]
      · split at hw <;> (cases hw; simp)
    exact ⟨cacheOk_of_frame hcache hfr.1 (by rw [hfr.2.1]), hc1,
      poolOk_of_frame hpool hfr.1 hfr.2.2.1 hfr.2.2.2 (by rw [hfr.2.1])⟩
  | fetched f p d u =>
    simp only [step] at hs
    split at hs
    · rename_i hen
      obtain ⟨w, hw, rfl⟩ := Option.map_eq_some'.1 hs
      obtain ⟨w1, hw1, hc1⟩ := onImageFetched_some p d u hcur
      rw [hw] at hw1; cases hw1
      exact ⟨cacheOk_onImageFetched hcache hw, hc1, poolOk_onImageFetched hpool hen.1 hen.2 hw⟩
    · exact absurd hs (by simp)
  | fetchFailed f e =>
    simp only [step] at hs
    split at hs
    · rename_i hen
      cases hs
      exact ⟨cacheOk_onFetchError e hcache, cursorOk_onFetchError e hcur,
        poolOk_onFetchError e hpool hen.1 hen.2⟩
    · exact absurd hs (by simp)
  | destroyed f =>
    simp only [step] at hs
    split at hs
    · cases hs
      exact ⟨cacheOk_of_frame hcache rfl (le_refl _), cursorOk_of_frame hcur rfl rfl,
        poolOk_onFetcherDestroyed hpool⟩
    · exact absurd hs (by simp)
  | settings d =>
    simp only [step] at hs
    split at hs
    · rename_i hen
      cases hs
      exact ⟨cacheOk_openSettingsDialog d hcache hen.1 hen.2, cursorOk_openSettingsDialog d hcur,
        poolOk_openSettingsDialog d hpool hen.1⟩
    · exact absurd hs (by simp)

theorem inv_run {es : List Event} {s s1 : Sys} (h : Inv s) (hs : run s es = some s1) :
    Inv s1 := by
  induction es generalizing s with
  | nil =>
    simp only [run, Option.some.injEq] at hs
    exact hs ▸ h
  | cons e es ih =>
    simp only [run] at hs
    obtain ⟨s2, h2, h3⟩ := Option.bind_eq_some.1 hs
    exact ih (inv_step h h2) h3

theorem inv_of_reachable {s : Sys} (h : Reachable s) : Inv s := by
  obtain ⟨apiUrl, c, dir, theme, dpr, es, h1, h20, hrun⟩ := h
  exact inv_run (inv_init apiUrl c dir theme dpr h1 h20) hrun

/-! ## Claims -/

/-- C1: from the initial state with a capacity in 1..20, after every sequence of events
(show next, show previous, fetch results, fetch failures, removals of finished units,
accepted settings) the prefetch cache holds at most `m_maxCacheSize` records. -/
theorem cache_within_capacity (apiUrl : String) (c : Int) (dir theme : String) (dpr : Nat)
    (es : List Event) (s : Sys) (h1 : 1 ≤ c) (h20 : c ≤ 20)
    (hrun : run (Sys.init apiUrl c dir theme dpr) es = some s) :
    (s.win.m_imageCache.length : Int) ≤ s.win.m_maxCacheSize :=
  (inv_run (inv_init apiUrl c dir theme dpr h1 h20) hrun).1.2.2

theorem cache_within_capacity_witness :
    run (startWith 2) tourEvents = some tourEnd ∧
      (tourEnd.win.m_imageCache.length : Int) ≤ tourEnd.win.m_maxCacheSize :=
  ⟨by decide,
    cache_within_capacity "https://www.acy.moe/api/r18" 2 "Pictures" "Dark" 2 tourEvents
      tourEnd (by decide) (by decide) (by decide)⟩

/-! ### C2 -/

theorem showNextFillSite_frame {w w1 : MainWindow} (h : showNextFillSite w = some w1) :
    w1.m_maxCacheSize = w.m_maxCacheSize ∧ w1.m_fetchers = w.m_fetchers ∧
      w1.nextFetcher = w.nextFetcher ∧ w1.m_imageCache.length ≤ w.m_imageCache.length := by
  unfold showNextFillSite at h
  split at h
  · exact absurd h (by simp)
  · split at h
    · obtain ⟨a, b, c, d, _⟩ := showNextFromCachePre_frame h
      exact ⟨a, c, d, by rw [b]; simp⟩
    · cases h
      exact ⟨rfl, rfl, rfl, le_refl _⟩

/-- What `showNextImage` returns when it calls `fillCache`: the result of that call,
passed through the exhausted test in the third branch. -/
theorem showNextImage_of_fillSite {w w1 : MainWindow} (h : showNextFillSite w = some w1) :
    showNextImage w = some (fillCache w1) ∨
      showNextImage w = some (reportIfExhausted (fillCache w1)) := by
  unfold showNextFillSite at h
  unfold showNextImage
  split at h
  · exact absurd h (by simp)
  · rename_i hc
    rw [if_neg hc]
    split at h
    · rename_i hne
      rw [if_pos hne]
      left
      simp [showNextFromCache, h]
    · rename_i hne
      rw [if_neg hne]
      cases h
      right
      rfl

theorem poolOk_fillCacheCall {s : Sys} (h : FillCacheCall s) : PoolOk s := by
  cases h with
  | ofConstructor apiUrl c dir theme dpr h1 h20 =>
    refine ⟨?_, ?_, List.nodup_nil, ?_, ?_⟩ <;> simp [MainWindow.beforeFill, running]
    omega
  | ofShowNext r w hr hw =>
    obtain ⟨a, b, c, d⟩ := showNextFillSite_frame hw
    exact poolOk_of_frame (inv_of_reachable hr).2.2 a b c d
  | ofFetchedShowNext r f p d u w hr hf hn hl hw =>
    obtain ⟨hp, hroom⟩ := poolOk_finish (inv_of_reachable hr).2.2 hf hn
    obtain ⟨a, b, c, e⟩ := showNextFillSite_frame hw
    exact poolOk_of_frame (poolOk_offerToCache p d u hp hroom) a b c e
  | ofFetched r f p d u w hr hf hn hw =>
    obtain ⟨hp, hroom⟩ := poolOk_finish (inv_of_reachable hr).2.2 hf hn
    have ho := poolOk_offerToCache p d u hp hroom
    unfold onImageFetchedPre at hw
    simp only at hw
    split at hw
    · exact poolOk_showNextImage ho hw
    · cases hw
      exact ho
  | ofFetchFailed r f e hr hf hn =>
    obtain ⟨a, b, c, d, _, _⟩ := onFetchErrorPre_frame r.win e
    exact poolOk_of_frame (poolOk_finish (inv_of_reachable hr).2.2 hf hn).1 a c d (by rw [b])
  | ofSettings r d hr h1 h20 hc =>
    refine ⟨?_, ?_, List.nodup_nil, ?_, ?_⟩ <;>
      simp [resetForSettings, takeDialogValues, startLoadingAnimation, running]
    omega

theorem countP_not_mem_add (l fin : List Nat) :
    l.countP (fun f => decide (f ∉ fin)) + l.countP (fun f => decide (f ∈ fin)) = l.length := by
  induction l with
  | nil => rfl
  | cons a l ih =>
    rw [List.countP_cons, List.countP_cons, List.length_cons]
    by_cases h : a ∈ fin
    · have h1 : decide (a ∉ fin) = false := by simp [h]
      have h2 : decide (a ∈ fin) = true := by simp [h]
      rw [h1, h2]
      simp only [if_true, Bool.false_eq_true, if_false]
      omega
    · have h1 : decide (a ∉ fin) = true := by simp [h]
      have h2 : decide (a ∈ fin) = false := by simp [h]
      rw [h1, h2]
      simp only [if_true, Bool.false_eq_true, if_false]
      omega

theorem length_eq_running_add_finished {s : Sys} (h : PoolOk s) :
    s.win.m_fetchers.length = running s + s.finished.length := by
  obtain ⟨h1, _, h3, h4, _⟩ := h
  have hsplit := countP_not_mem_add s.win.m_fetchers s.finished
  have hperm : (s.win.m_fetchers.filter (fun f => decide (f ∈ s.finished))).Perm s.finished := by
    rw [List.perm_ext_iff_of_nodup (h1.filter _) h3]
    intro a
    simp only [List.mem_filter, decide_eq_true_eq]
    exact ⟨fun h => h.2, fun h => ⟨h4 a h, h⟩⟩
  have hlen := hperm.length_eq
  rw [← List.countP_eq_length_filter] at hlen
  unfold running
  omega

/-- C2, as the code has it: right after any call of `fillCache` returns, the cache and
the fetch units that have not reported a result yet fit the capacity; `m_fetchers` may
hold, on top of those, the units that have reported and await their removal. -/
theorem fillCache_bound (s : Sys) (h : FillCacheCall s) :
    ((fillCache s.win).m_imageCache.length : Int)
        + (running { win := fillCache s.win, finished := s.finished } : Int)
        ≤ (fillCache s.win).m_maxCacheSize ∧
      ((fillCache s.win).m_imageCache.length : Int) + ((fillCache s.win).m_fetchers.length : Int)
        ≤ (fillCache s.win).m_maxCacheSize + (s.finished.length : Int) := by
  have hp : PoolOk { win := fillCache s.win, finished := s.finished } :=
    poolOk_fillCache (poolOk_fillCacheCall h)
  have hlen := length_eq_running_add_finished hp
  have hb := hp.2.2.2.2
  simp only at hlen hb
  exact ⟨hb, by omega⟩

theorem fillCache_bound_witness :
    FillCacheCall fetchedCall ∧
      ((fillCache fetchedCall.win).m_imageCache.length : Int)
          + (running { win := fillCache fetchedCall.win, finished := fetchedCall.finished } : Int)
          ≤ (fillCache fetchedCall.win).m_maxCacheSize ∧
      ((fillCache fetchedCall.win).m_imageCache.length : Int)
          + ((fillCache fetchedCall.win).m_fetchers.length : Int)
          ≤ (fillCache fetchedCall.win).m_maxCacheSize + (fetchedCall.finished.length : Int) :=
  have hcall : FillCacheCall fetchedCall :=
    FillCacheCall.ofFetched (startWith 1) 0 { bits := 1, dpr := 1 } [1] "u1" _
      ⟨_, 1, _, _, _, [], by decide, by decide, rfl⟩ (by decide) (by decide) (by decide)
  ⟨hcall, fillCache_bound fetchedCall hcall⟩

/-- C2 fails: with capacity 1, when the result of the only unit arrives right after
start-up, `onImageFetched` enqueues it and calls `fillCache` while the unit is still in
`m_fetchers`; when that call returns the cache holds 1 record and `m_fetchers` 1 unit. -/
theorem fillCache_bound_counterexample :
    FillCacheCall fetchedCall ∧
      onImageFetched (startWith 1).win { bits := 1, dpr := 1 } [1] "u1"
        = some (fillCache fetchedCall.win) ∧
      (fillCache fetchedCall.win).m_imageCache.length = 1 ∧
      (fillCache fetchedCall.win).m_fetchers.length = 1 ∧
      (fillCache fetchedCall.win).m_maxCacheSize = 1 ∧
      ¬ (((fillCache fetchedCall.win).m_imageCache.length : Int)
          + ((fillCache fetchedCall.win).m_fetchers.length : Int)
          ≤ (fillCache fetchedCall.win).m_maxCacheSize) :=
  ⟨FillCacheCall.ofFetched (startWith 1) 0 { bits := 1, dpr := 1 } [1] "u1" _
      ⟨_, 1, _, _, _, [], by decide, by decide, rfl⟩ (by decide) (by decide) (by decide),
    by decide, by decide, by decide, by decide, by decide⟩

/-! ### C5 and C3 -/

theorem showNext_replay_aux (w : MainWindow) (h0 : 0 ≤ w.m_currentHistoryIndex)
    (hlt : w.m_currentHistoryIndex < (w.m_history.length : Int) - 1) :
    ∃ r w1, histAt w.m_history (w.m_currentHistoryIndex + 1) = some r ∧
      showNextImage w = some w1 ∧
      w1.m_currentHistoryIndex = w.m_currentHistoryIndex + 1 ∧
      w1.displayed = w.displayed ++ [r] ∧
      w1.imageLabel = Label.pixmap r.pixmap ∧
      w1.m_history = w.m_history ∧
      w1.m_imageCache = w.m_imageCache ∧
      w1.m_fetchers = w.m_fetchers ∧
      w1.nextFetcher = w.nextFetcher ∧
      w1.m_maxCacheSize = w.m_maxCacheSize := by
  obtain ⟨r, hr⟩ := histAt_eq_some (h := w.m_history) (i := w.m_currentHistoryIndex + 1)
    (by omega) (by omega)
  have hc : w.m_currentHistoryIndex ≠ -1 ∧
      w.m_currentHistoryIndex < (w.m_history.length : Int) - 1 := ⟨by omega, hlt⟩
  refine ⟨r,
    { displayImage { w with m_currentHistoryIndex := w.m_currentHistoryIndex + 1 } r with
      status := StatusMsg.history (w.m_currentHistoryIndex + 1 + 1) w.m_history.length },
    hr, ?_, ?_⟩
  · unfold showNextImage showNextFromHistory
    rw [if_pos hc]
    simp only [hr]
  · simp [displayImage, stopLoadingAnimation]

/-- C5: with the cursor on an index before the last one, `showNextImage` displays
`m_history[cursor + 1]` and moves the cursor there; the history, the cache and
`m_fetchers` stay as they are and no fetch unit is launched. -/
theorem showNext_replays_history (w : MainWindow) (h0 : 0 ≤ w.m_currentHistoryIndex)
    (hlt : w.m_currentHistoryIndex < (w.m_history.length : Int) - 1) :
    ∃ r w1, histAt w.m_history (w.m_currentHistoryIndex + 1) = some r ∧
      showNextImage w = some w1 ∧
      w1.m_currentHistoryIndex = w.m_currentHistoryIndex + 1 ∧
      w1.displayed = w.displayed ++ [r] ∧
      w1.imageLabel = Label.pixmap r.pixmap ∧
      w1.m_history = w.m_history ∧
      w1.m_imageCache = w.m_imageCache ∧
      w1.m_fetchers = w.m_fetchers ∧
      w1.nextFetcher = w.nextFetcher ∧
      w1.m_maxCacheSize = w.m_maxCacheSize :=
  showNext_replay_aux w h0 hlt

/-- Scenario C: history [R1, R2, R3] with the cursor at 2; two `showPreviousImage` lead
to cursor 0 showing R1; `showNextImage` then replays R2 at cursor 1. -/
theorem showNext_replays_history_witness :
    scenarioC.win.m_history = [image 1 "u1", image 2 "u2", image 3 "u3"] ∧
      scenarioC.win.m_currentHistoryIndex = 2 ∧
      run scenarioC [Event.showPrevious, Event.showPrevious] = some scenarioCBack ∧
      scenarioCBack.win.m_currentHistoryIndex = 0 ∧
      scenarioCBack.win.imageLabel = Label.pixmap (image 1 "u1").pixmap ∧
      (showNextImage scenarioCBack.win).map
          (fun w => (w.m_currentHistoryIndex, w.imageLabel, w.m_history, w.m_imageCache,
            w.m_fetchers))
        = some (1, Label.pixmap (image 2 "u2").pixmap, scenarioCBack.win.m_history,
            scenarioCBack.win.m_imageCache, scenarioCBack.win.m_fetchers) ∧
      ∃ r w1, histAt scenarioCBack.win.m_history (scenarioCBack.win.m_currentHistoryIndex + 1)
          = some r ∧
        showNextImage scenarioCBack.win = some w1 ∧
        w1.m_currentHistoryIndex = scenarioCBack.win.m_currentHistoryIndex + 1 ∧
        w1.displayed = scenarioCBack.win.displayed ++ [r] ∧
        w1.imageLabel = Label.pixmap r.pixmap ∧
        w1.m_history = scenarioCBack.win.m_history ∧
        w1.m_imageCache = scenarioCBack.win.m_imageCache ∧
        w1.m_fetchers = scenarioCBack.win.m_fetchers ∧
        w1.nextFetcher = scenarioCBack.win.nextFetcher ∧
        w1.m_maxCacheSize = scenarioCBack.win.m_maxCacheSize :=
  ⟨by decide, by decide, by decide, by decide, by decide, by decide,
    showNext_replays_history scenarioCBack.win (by decide) (by decide)⟩

theorem removeRange_to_end (h : List ImageInfo) (i : Nat) (n : Nat) (hn : h.length ≤ i + n) :
    removeRange h i n = h.take i := by
  unfold removeRange
  rw [List.drop_eq_nil_of_le hn, List.append_nil]

/-- C3, as the code has it: with the cursor at an index `k` before the last one,
`showNextImage` replays `m_history[k + 1]` whatever the cache holds: no history entry is
removed and the cache keeps its records. The truncation is what the cache branch (lines
280-295) computes when it is run on such a state with a front record whose URL differs
from that of `m_history[k + 1]`: the entries after `k` are removed, the record is
appended and the cursor is `k + 1`; the first test of `showNextImage` keeps that branch
from running there. -/
theorem showNext_truncate_law (w : MainWindow) (front : ImageInfo) (rest : List ImageInfo)
    (next : ImageInfo) (h0 : 0 ≤ w.m_currentHistoryIndex)
    (hlt : w.m_currentHistoryIndex < (w.m_history.length : Int) - 1)
    (hcache : w.m_imageCache = front :: rest)
    (hnext : histAt w.m_history (w.m_currentHistoryIndex + 1) = some next)
    (hurl : front.imageUrl ≠ next.imageUrl) :
    (∃ w1, showNextImage w = some w1 ∧ w1.m_history = w.m_history ∧
        w1.m_currentHistoryIndex = w.m_currentHistoryIndex + 1 ∧
        w1.m_imageCache = front :: rest ∧ w1.displayed = w.displayed ++ [next]) ∧
      (∃ w2, showNextFromCache w = some w2 ∧
        w2.m_history = w.m_history.take (w.m_currentHistoryIndex + 1).toNat ++ [front] ∧
        w2.m_currentHistoryIndex = w.m_currentHistoryIndex + 1 ∧
        w2.m_imageCache = rest ∧ w2.displayed = w.displayed ++ [front]) := by
  constructor
  · obtain ⟨r, w1, hr, hs, a, b, _, c, d, _⟩ := showNext_replay_aux w h0 hlt
    rw [hnext] at hr
    cases hr
    exact ⟨w1, hs, c, a, by rw [d, hcache], b⟩
  · have hne : w.m_currentHistoryIndex ≠ -1 := by omega
    have hcond : appendCondition (displayImage { w with m_imageCache := rest } front) front
        = some true := by
      unfold appendCondition
      simp only [displayImage, stopLoadingAnimation]
      rw [if_neg hne, if_pos hlt, hnext]
      simp [Ne.symm hurl]
    have hlen : ((w.m_history.take (w.m_currentHistoryIndex + 1).toNat).length : Int)
        = w.m_currentHistoryIndex + 1 := by
      rw [List.length_take]
      omega
    have hs : showNextFromCache w = some (fillCache
        { appendToHistory (displayImage { w with m_imageCache := rest } front) front with
          status := StatusMsg.showingFromCache
            (appendToHistory (displayImage { w with m_imageCache := rest } front)
              front).m_imageCache.length
            (appendToHistory (displayImage { w with m_imageCache := rest } front)
              front).m_maxCacheSize }) := by
      unfold showNextFromCache showNextFromCachePre
      rw [hcache]
      simp only [hcond, if_true, Option.map_some']
    refine ⟨_, hs, ?_⟩
    rw [fillCache_eq]
    unfold appendToHistory
    simp only [displayImage, stopLoadingAnimation]
    rw [if_pos ⟨hne, hlt⟩]
    simp only
    rw [removeRange_to_end _ _ _ (by omega)]
    refine ⟨rfl, ?_, trivial, trivial⟩
    rw [List.length_append, List.length_singleton]
    push_cast
    rw [hlen]
    omega

/-- Scenario D on the code: `showNextImage` replays R2; the cache branch, had it run,
would have produced [R1, R4]. -/
theorem showNext_truncate_law_witness :
    (0 ≤ scenarioD.win.m_currentHistoryIndex ∧
      scenarioD.win.m_currentHistoryIndex < (scenarioD.win.m_history.length : Int) - 1 ∧
      scenarioD.win.m_imageCache = [image 4 "u4"] ∧
      histAt scenarioD.win.m_history (scenarioD.win.m_currentHistoryIndex + 1)
        = some (image 2 "u2")) ∧
      (∃ w1, showNextImage scenarioD.win = some w1 ∧ w1.m_history = scenarioD.win.m_history ∧
        w1.m_currentHistoryIndex = scenarioD.win.m_currentHistoryIndex + 1 ∧
        w1.m_imageCache = [image 4 "u4"] ∧
        w1.displayed = scenarioD.win.displayed ++ [image 2 "u2"]) ∧
      (∃ w2, showNextFromCache scenarioD.win = some w2 ∧
        w2.m_history = scenarioD.win.m_history.take
          (scenarioD.win.m_currentHistoryIndex + 1).toNat ++ [image 4 "u4"] ∧
        w2.m_currentHistoryIndex = scenarioD.win.m_currentHistoryIndex + 1 ∧
        w2.m_imageCache = [] ∧ w2.displayed = scenarioD.win.displayed ++ [image 4 "u4"]) :=
  ⟨by decide,
    showNext_truncate_law scenarioD.win (image 4 "u4") [] (image 2 "u2") (by decide)
      (by decide) (by decide) (by decide) (by decide)⟩

/-- C3 fails on Scenario D: with history [R1, R2], cursor 0 and R4 (another URL than R2)
at the front of the cache, `showNextImage` leaves the history [R1, R2], moves the cursor
to 1, displays R2 and leaves R4 in the cache; the history is not [R1, R4]. -/
theorem showNext_truncate_counterexample :
    scenarioD.win.m_history = [image 1 "u1", image 2 "u2"] ∧
      scenarioD.win.m_currentHistoryIndex = 0 ∧
      scenarioD.win.m_imageCache = [image 4 "u4"] ∧
      (image 4 "u4").imageUrl ≠ (image 2 "u2").imageUrl ∧
      (showNextImage scenarioD.win).map
          (fun w => (w.m_history, w.m_currentHistoryIndex, w.m_imageCache, w.imageLabel))
        = some ([image 1 "u1", image 2 "u2"], 1, [image 4 "u4"],
            Label.pixmap (image 2 "u2").pixmap) ∧
      (showNextImage scenarioD.win).map (fun w => w.m_history)
        ≠ some [image 1 "u1", image 4 "u4"] := by
  decide

/-! ### C4 -/

theorem appendShown_cons (h : List ImageInfo) (r : ImageInfo) (rs : List ImageInfo) :
    appendShown h (r :: rs) =
      appendShown
        (match h.getLast? with
         | none => h ++ [r]
         | some last => if last.imageUrl ≠ r.imageUrl then h ++ [r] else h)
        rs := rfl

theorem showNext_takes_front {w : MainWindow} {r : ImageInfo} {rs : List ImageInfo}
    (hcache : w.m_imageCache = r :: rs)
    (hend : w.m_currentHistoryIndex = (w.m_history.length : Int) - 1) :
    ∃ w1, showNextImage w = some w1 ∧ w1.displayed = w.displayed ++ [r] ∧
      w1.m_imageCache = rs ∧
      w1.m_history = (match w.m_history.getLast? with
        | none => w.m_history ++ [r]
        | some last => if last.imageUrl ≠ r.imageUrl then w.m_history ++ [r] else w.m_history) ∧
      w1.m_currentHistoryIndex = (w1.m_history.length : Int) - 1 := by
  have hnr : ¬ (w.m_currentHistoryIndex ≠ -1 ∧
      w.m_currentHistoryIndex < (w.m_history.length : Int) - 1) := by omega
  have hne : ¬ w.m_imageCache.isEmpty := by simp [hcache]
  have hpre : ∃ w0, showNextFromCachePre w = some w0 ∧ w0.displayed = w.displayed ++ [r] ∧
      w0.m_imageCache = rs ∧
      w0.m_history = (match w.m_history.getLast? with
        | none => w.m_history ++ [r]
        | some last => if last.imageUrl ≠ r.imageUrl then w.m_history ++ [r] else w.m_history) ∧
      w0.m_currentHistoryIndex = (w0.m_history.length : Int) - 1 := by
    unfold showNextFromCachePre
    rw [hcache]
    simp only
    unfold appendCondition
    simp only [displayImage, stopLoadingAnimation]
    by_cases hm1 : w.m_currentHistoryIndex = -1
    · have hnil : w.m_history = [] := by
        apply List.eq_nil_of_length_eq_zero; omega
      rw [if_pos hm1]
      simp only [if_true]
      refine ⟨_, rfl, ?_⟩
      unfold appendToHistory
      simp [hm1, hnil]
    · rw [if_neg hm1, if_neg (by omega), if_pos hend]
      cases hl : w.m_history.getLast? with
      | none =>
        simp only [if_true]
        refine ⟨_, rfl, ?_⟩
        unfold appendToHistory
        simp only
        rw [if_neg (by omega)]
        simp
      | some last =>
        simp only
        by_cases hu : last.imageUrl = r.imageUrl
        · simp only [hu, ne_eq, not_true_eq_false, decide_False, Bool.false_eq_true, if_false]
          refine ⟨_, rfl, ?_⟩
          simp [hend]
        · simp only [hu, ne_eq, not_false_eq_true, decide_True, if_true]
          refine ⟨_, rfl, ?_⟩
          unfold appendToHistory
          simp only
          rw [if_neg (by omega)]
          simp
  obtain ⟨w0, hw0, a, b, c, d⟩ := hpre
  refine ⟨fillCache w0, ?_, ?_⟩
  · unfold showNextImage
    rw [if_neg hnr, if_pos hne]
    simp [showNextFromCache, hw0]
  · rw [fillCache_eq]
    exact ⟨a, b, c, d⟩

theorem showNextTimes_drains (rs : List ImageInfo) :
    ∀ w : MainWindow, w.m_imageCache = rs →
      w.m_currentHistoryIndex = (w.m_history.length : Int) - 1 →
      ∃ w1, showNextTimes rs.length w = some w1 ∧ w1.displayed = w.displayed ++ rs ∧
        w1.m_imageCache = [] ∧ w1.m_history = appendShown w.m_history rs ∧
        w1.m_currentHistoryIndex = (w1.m_history.length : Int) - 1 := by
  induction rs with
  | nil =>
    intro w hc he
    exact ⟨w, rfl, by simp, hc, rfl, he⟩
  | cons r rs ih =>
    intro w hc he
    obtain ⟨w1, hs, a, b, c, d⟩ := showNext_takes_front hc he
    obtain ⟨w2, hs2, a2, b2, c2, d2⟩ := ih w1 b d
    refine ⟨w2, ?_, ?_, b2, ?_, d2⟩
    · simp only [List.length_cons, showNextTimes, hs, Option.some_bind]
      exact hs2
    · rw [a2, a]; simp
    · rw [c2, c, appendShown_cons]

theorem appendShown_of_urlsChange (rs : List ImageInfo) :
    ∀ h : List ImageInfo, urlsChange (h.getLast?.map fun r => r.imageUrl) rs →
      appendShown h rs = h ++ rs := by
  induction rs with
  | nil => intro h _; simp [appendShown]
  | cons r rs ih =>
    intro h hu
    obtain ⟨hu1, hu2⟩ := hu
    have hstep : (match h.getLast? with
        | none => h ++ [r]
        | some last => if last.imageUrl ≠ r.imageUrl then h ++ [r] else h) = h ++ [r] := by
      cases hl : h.getLast? with
      | none => rfl
      | some last =>
        simp only
        rw [hl] at hu1
        simp only [Option.map_some', ne_eq, Option.some.injEq] at hu1
        rw [if_pos hu1]
    rw [appendShown_cons, hstep, ih (h ++ [r]) (by simpa using hu2)]
    simp

/-- C4, as the code has it: with the cursor at the end of the history (or −1 on an
empty history) and the records R1..Rn in the cache, n calls of `showNextImage` display
R1..Rn in that order and empty the cache; a record enters the history unless its URL is
that of the last history entry, and the cursor is at the last index. When each record has
a URL other than that of the record before it (for R1: of the last history entry) the
history becomes H ++ [R1..Rn]. -/
theorem showNext_drains_cache (w : MainWindow) (rs : List ImageInfo)
    (hcache : w.m_imageCache = rs)
    (hend : w.m_currentHistoryIndex = (w.m_history.length : Int) - 1) :
    ∃ w1, showNextTimes rs.length w = some w1 ∧ w1.displayed = w.displayed ++ rs ∧
      w1.m_imageCache = [] ∧ w1.m_history = appendShown w.m_history rs ∧
      w1.m_currentHistoryIndex = (w1.m_history.length : Int) - 1 ∧
      (urlsChange (w.m_history.getLast?.map fun r => r.imageUrl) rs →
        w1.m_history = w.m_history ++ rs) := by
  obtain ⟨w1, a, b, c, d, e⟩ := showNextTimes_drains rs w hcache hend
  exact ⟨w1, a, b, c, d, e, fun hu => by rw [d, appendShown_of_urlsChange rs _ hu]⟩

/-- Scenario B: capacity 3, empty history, cache [R1, R2, R3] with three different URLs;
three calls of `showNextImage` give history [R1, R2, R3] and cursor 2. -/
theorem showNext_drains_cache_witness :
    (scenarioB.win.m_maxCacheSize = 3 ∧ scenarioB.win.m_history = [] ∧
      scenarioB.win.m_currentHistoryIndex = -1 ∧
      scenarioB.win.m_imageCache = [image 1 "u1", image 2 "u2", image 3 "u3"]) ∧
      (showNextTimes 3 scenarioB.win).map
          (fun w => (w.m_history, w.m_currentHistoryIndex, w.m_imageCache))
        = some ([image 1 "u1", image 2 "u2", image 3 "u3"], 2, []) ∧
      ∃ w1, showNextTimes [image 1 "u1", image 2 "u2", image 3 "u3"].length scenarioB.win
          = some w1 ∧
        w1.displayed = scenarioB.win.displayed ++ [image 1 "u1", image 2 "u2", image 3 "u3"] ∧
        w1.m_imageCache = [] ∧
        w1.m_history = appendShown scenarioB.win.m_history
          [image 1 "u1", image 2 "u2", image 3 "u3"] ∧
        w1.m_currentHistoryIndex = (w1.m_history.length : Int) - 1 ∧
        (urlsChange (scenarioB.win.m_history.getLast?.map fun r => r.imageUrl)
            [image 1 "u1", image 2 "u2", image 3 "u3"] →
          w1.m_history = scenarioB.win.m_history
            ++ [image 1 "u1", image 2 "u2", image 3 "u3"]) :=
  ⟨by decide, by decide,
    showNext_drains_cache scenarioB.win [image 1 "u1", image 2 "u2", image 3 "u3"]
      (by decide) (by decide)⟩

/-- C4 fails when two records in a row have the same URL: with an empty history and the
cache [A, B], both fetched from URL "u", two calls of `showNextImage` display A then B
but leave the history [A] with the cursor at 0. -/
theorem showNext_drains_cache_counterexample :
    scenarioSameUrl.win.m_history = [] ∧
      scenarioSameUrl.win.m_currentHistoryIndex = -1 ∧
      scenarioSameUrl.win.m_imageCache = [image 1 "u", image 2 "u"] ∧
      (showNextTimes 2 scenarioSameUrl.win).map
          (fun w => (w.displayed, w.m_history, w.m_currentHistoryIndex))
        = some ([image 1 "u", image 2 "u"], [image 1 "u"], 0) ∧
      (showNextTimes 2 scenarioSameUrl.win).map (fun w => w.m_history)
        ≠ some ([] ++ [image 1 "u", image 2 "u"]) := by
  decide

/-! ### C6 -/

theorem fillCache_tops_up (w : MainWindow) :
    (fillCache w).m_maxCacheSize ≤
      ((fillCache w).m_imageCache.length : Int) + ((fillCache w).m_fetchers.length : Int) := by
  rw [fillCache_eq]
  simp only [List.length_append, List.length_range', needed]
  omega

/-- C6, as the code has it: with a capacity of at least 1, a `showNextImage` that finds
the cursor at the end of the history (or −1) and the cache empty starts the loading
animation and calls `fillCache`, which launches the missing units, so that `m_fetchers`
is not empty when it is tested: no message box is shown, the label keeps the loading
movie, and the 'No available images.' branch is not taken. -/
theorem showNext_never_exhausted (w : MainWindow) (hcap : 1 ≤ w.m_maxCacheSize)
    (hend : ¬ (w.m_currentHistoryIndex ≠ -1 ∧
      w.m_currentHistoryIndex < (w.m_history.length : Int) - 1))
    (hcache : w.m_imageCache = []) :
    showNextImage w = some (fillCache (showNextLoadingPre w)) ∧
      (fillCache (showNextLoadingPre w)).imageLabel = Label.movie ∧
      (fillCache (showNextLoadingPre w)).movieRunning = true ∧
      (fillCache (showNextLoadingPre w)).messageBoxes = w.messageBoxes ∧
      (fillCache (showNextLoadingPre w)).m_fetchers ≠ [] ∧
      (fillCache (showNextLoadingPre w)).m_fetchers
        = w.m_fetchers ++ List.range' w.nextFetcher
            (w.m_maxCacheSize - (w.m_fetchers.length : Int)).toNat := by
  have hlen := fillCache_tops_up (showNextLoadingPre w)
  have hc : (fillCache (showNextLoadingPre w)).m_imageCache = [] := by
    rw [fillCache_eq]; exact hcache
  have hm : (fillCache (showNextLoadingPre w)).m_maxCacheSize = w.m_maxCacheSize := by
    rw [fillCache_eq]; rfl
  have hne : (fillCache (showNextLoadingPre w)).m_fetchers ≠ [] := by
    intro h0
    rw [hc, h0, hm] at hlen
    simp at hlen
    omega
  refine ⟨?_, by rw [fillCache_eq]; rfl, by rw [fillCache_eq]; rfl, by rw [fillCache_eq]; rfl,
    hne, ?_⟩
  · unfold showNextImage
    rw [if_neg hend, if_neg (by simp [hcache])]
    unfold showNextLoading reportIfExhausted
    rw [if_neg]
    intro h
    exact hne (List.isEmpty_iff.1 h.1)
  · rw [fillCache_eq]
    simp [needed, showNextLoadingPre, startLoadingAnimation, hcache]

/-- Scenario E on the code: both start-up units have failed and are gone; `showNextImage`
launches units 2 and 3 and shows the loading movie. -/
theorem showNext_never_exhausted_witness :
    (1 ≤ scenarioE.win.m_maxCacheSize ∧ scenarioE.win.m_imageCache = []) ∧
      showNextImage scenarioE.win = some (fillCache (showNextLoadingPre scenarioE.win)) ∧
      (fillCache (showNextLoadingPre scenarioE.win)).imageLabel = Label.movie ∧
      (fillCache (showNextLoadingPre scenarioE.win)).movieRunning = true ∧
      (fillCache (showNextLoadingPre scenarioE.win)).messageBoxes = scenarioE.win.messageBoxes ∧
      (fillCache (showNextLoadingPre scenarioE.win)).m_fetchers ≠ [] ∧
      (fillCache (showNextLoadingPre scenarioE.win)).m_fetchers
        = scenarioE.win.m_fetchers ++ List.range' scenarioE.win.nextFetcher
            (scenarioE.win.m_maxCacheSize - (scenarioE.win.m_fetchers.length : Int)).toNat :=
  ⟨by decide, showNext_never_exhausted scenarioE.win (by decide) (by decide) (by decide)⟩

/-- C6 fails on Scenario E: capacity 2, empty history and cache, the two units launched
at start-up have failed and left `m_fetchers`; `showNextImage` launches two new units,
shows no message box and leaves the loading movie on the label, not the text
'No available images.'. -/
theorem showNext_exhausted_counterexample :
    run (startWith 2)
        [Event.fetchFailed 0 "timeout", Event.fetchFailed 1 "timeout", Event.destroyed 0,
          Event.destroyed 1] = some scenarioE ∧
      scenarioE.win.m_maxCacheSize = 2 ∧ scenarioE.win.m_history = [] ∧
      scenarioE.win.m_imageCache = [] ∧ scenarioE.win.m_fetchers = [] ∧
      scenarioE.win.messageBoxes = [] ∧
      (showNextImage scenarioE.win).map
          (fun w => (w.imageLabel, w.movieRunning, w.messageBoxes, w.m_fetchers))
        = some (Label.movie, true, [], [2, 3]) ∧
      (showNextImage scenarioE.win).map (fun w => w.imageLabel)
        ≠ some (Label.text "No available images.") := by
  decide

/-! ### C8 -/

/-- C8: `showPreviousImage` with the cursor above 0 moves it back by one and displays
`m_history[cursor − 1]`; with the cursor at 0 on a non-empty history it reports 'first
image'; on an empty history it reports 'no history'. In the last two cases nothing but
the status message changes, and in all three the history, the cache and `m_fetchers` are
unchanged. -/
theorem showPrevious_cases (w : MainWindow) :
    (∀ r, 0 < w.m_currentHistoryIndex →
        histAt w.m_history (w.m_currentHistoryIndex - 1) = some r →
        ∃ w1, showPreviousImage w = some w1 ∧
          w1.m_currentHistoryIndex = w.m_currentHistoryIndex - 1 ∧
          w1.displayed = w.displayed ++ [r] ∧ w1.imageLabel = Label.pixmap r.pixmap ∧
          w1.m_history = w.m_history ∧ w1.m_imageCache = w.m_imageCache ∧
          w1.m_fetchers = w.m_fetchers ∧ w1.nextFetcher = w.nextFetcher ∧
          w1.m_maxCacheSize = w.m_maxCacheSize) ∧
      (w.m_currentHistoryIndex = 0 → w.m_history ≠ [] →
        showPreviousImage w = some { w with status := StatusMsg.firstImage }) ∧
      (w.m_history = [] →
        showPreviousImage w = some { w with status := StatusMsg.noMoreHistory }) := by
  refine ⟨?_, ?_, ?_⟩
  · intro r hpos hr
    have hne : ¬ w.m_history.isEmpty := by
      intro he
      rw [List.isEmpty_iff] at he
      simp [histAt, he] at hr
    refine ⟨{ displayImage { w with m_currentHistoryIndex := w.m_currentHistoryIndex - 1 } r with
        status := StatusMsg.history (w.m_currentHistoryIndex - 1 + 1) w.m_history.length },
      ?_, ?_⟩
    · unfold showPreviousImage
      rw [if_pos ⟨hne, hpos⟩]
      simp only [hr]
    · simp [displayImage, stopLoadingAnimation]
  · intro h0 hne
    have hne2 : ¬ w.m_history.isEmpty := by
      rw [List.isEmpty_iff]; exact hne
    unfold showPreviousImage
    rw [if_neg (by omega), if_pos ⟨hne2, h0⟩]
  · intro hnil
    unfold showPreviousImage
    rw [if_neg (by simp [hnil]), if_neg (by simp [hnil])]

/-- The three cases on concrete states: cursor 2 of [R1, R2, R3], cursor 0 of the same
history, and the empty history right after start-up. -/
theorem showPrevious_cases_witness :
    (∃ w1, showPreviousImage scenarioC.win = some w1 ∧
        w1.m_currentHistoryIndex = scenarioC.win.m_currentHistoryIndex - 1 ∧
        w1.displayed = scenarioC.win.displayed ++ [image 2 "u2"] ∧
        w1.imageLabel = Label.pixmap (image 2 "u2").pixmap ∧
        w1.m_history = scenarioC.win.m_history ∧
        w1.m_imageCache = scenarioC.win.m_imageCache ∧
        w1.m_fetchers = scenarioC.win.m_fetchers ∧
        w1.nextFetcher = scenarioC.win.nextFetcher ∧
        w1.m_maxCacheSize = scenarioC.win.m_maxCacheSize) ∧
      showPreviousImage scenarioCBack.win
        = some { scenarioCBack.win with status := StatusMsg.firstImage } ∧
      showPreviousImage (startWith 2).win
        = some { (startWith 2).win with status := StatusMsg.noMoreHistory } :=
  ⟨(showPrevious_cases scenarioC.win).1 (image 2 "u2") (by decide) (by decide),
    (showPrevious_cases scenarioCBack.win).2.1 (by decide) (by decide),
    (showPrevious_cases (startWith 2).win).2.2 (by decide)⟩

/-! ### C9 -/

theorem cursorOk_step {s s1 : Sys} {e : Event} (h : CursorOk s.win)
    (hs : step s e = some s1) : CursorOk s1.win := by
  cases e with
  | showNext =>
    simp only [step] at hs
    obtain ⟨w, hw, rfl⟩ := Option.map_eq_some'.1 hs
    obtain ⟨w1, hw1, hc1⟩ := showNextImage_some h
    rw [hw] at hw1; cases hw1
    exact hc1
  | showPrevious =>
    simp only [step] at hs
    obtain ⟨w, hw, rfl⟩ := Option.map_eq_some'.1 hs
    obtain ⟨w1, hw1, hc1⟩ := showPreviousImage_some h
    rw [hw] at hw1; cases hw1
    exact hc1
  | fetched f p d u =>
    simp only [step] at hs
    split at hs
    · obtain ⟨w, hw, rfl⟩ := Option.map_eq_some'.1 hs
      obtain ⟨w1, hw1, hc1⟩ := onImageFetched_some p d u h
      rw [hw] at hw1; cases hw1
      exact hc1
    · exact absurd hs (by simp)
  | fetchFailed f e =>
    simp only [step] at hs
    split at hs
    · cases hs
      exact cursorOk_onFetchError e h
    · exact absurd hs (by simp)
  | destroyed f =>
    simp only [step] at hs
    split at hs
    · cases hs
      exact cursorOk_of_frame h rfl rfl
    · exact absurd hs (by simp)
  | settings d =>
    simp only [step] at hs
    split at hs
    · cases hs
      exact cursorOk_openSettingsDialog d h
    · exact absurd hs (by simp)

theorem cursorOk_run {es : List Event} {s s1 : Sys} (h : CursorOk s.win)
    (hs : run s es = some s1) : CursorOk s1.win := by
  induction es generalizing s with
  | nil =>
    simp only [run, Option.some.injEq] at hs
    exact hs ▸ h
  | cons e es ih =>
    simp only [run] at hs
    obtain ⟨s2, h2, h3⟩ := Option.bind_eq_some.1 hs
    exact ih (cursorOk_step h h2) h3

/-- C9: in every state reached from the initial state (empty history, cursor −1, any
capacity) the cursor is −1 or an index of the history, and so `showNextImage`,
`showPreviousImage` and `onImageFetched` never index `m_history` out of range there. -/
theorem cursor_invariant (apiUrl : String) (c : Int) (dir theme : String) (dpr : Nat)
    (es : List Event) (s : Sys) (hrun : run (Sys.init apiUrl c dir theme dpr) es = some s) :
    (s.win.m_currentHistoryIndex = -1 ∨
        (0 ≤ s.win.m_currentHistoryIndex ∧
          s.win.m_currentHistoryIndex < (s.win.m_history.length : Int))) ∧
      (showNextImage s.win).isSome = true ∧
      (showPreviousImage s.win).isSome = true ∧
      ∀ (p : Pixmap) (d : List Nat) (u : String), (onImageFetched s.win p d u).isSome = true := by
  have h0 : CursorOk (Sys.init apiUrl c dir theme dpr).win := by
    unfold Sys.init MainWindow.new
    exact cursorOk_fillCache (Or.inl rfl)
  have h : CursorOk s.win := cursorOk_run h0 hrun
  refine ⟨h, ?_, ?_, ?_⟩
  · obtain ⟨w1, hw1, _⟩ := showNextImage_some h
    rw [hw1]; rfl
  · obtain ⟨w1, hw1, _⟩ := showPreviousImage_some h
    rw [hw1]; rfl
  · intro p d u
    obtain ⟨w1, hw1, _⟩ := onImageFetched_some p d u h
    rw [hw1]; rfl

theorem cursor_invariant_witness :
    run (startWith 2) tourEvents = some tourEnd ∧
      (tourEnd.win.m_currentHistoryIndex = -1 ∨
        (0 ≤ tourEnd.win.m_currentHistoryIndex ∧
          tourEnd.win.m_currentHistoryIndex < (tourEnd.win.m_history.length : Int))) ∧
      (showNextImage tourEnd.win).isSome = true ∧
      (showPreviousImage tourEnd.win).isSome = true ∧
      ∀ (p : Pixmap) (d : List Nat) (u : String),
        (onImageFetched tourEnd.win p d u).isSome = true :=
  ⟨by decide,
    cursor_invariant "https://www.acy.moe/api/r18" 2 "Pictures" "Dark" 2 tourEvents tourEnd
      (by decide)⟩

/-! ### C10 -/

/-- C10: when an accepted settings dialog (capacity at least 1; the dialog offers 1..20)
changes the API URL or the cache size, the cache and the history are empty afterwards,
the cursor is −1, the loading animation runs, and `m_fetchers` holds exactly as many
units as the new capacity, all launched by this call, none of them in `m_fetchers`
before; when neither value changes, the cache, the history, the cursor and `m_fetchers`
are unchanged and no unit is launched. -/
theorem settings_change (w : MainWindow) (d : SettingsDialog) (h1 : 1 ≤ d.maxCacheSize) :
    ((d.apiUrl ≠ w.m_apiUrl ∨ d.maxCacheSize ≠ w.m_maxCacheSize) →
        (openSettingsDialog w true d).m_imageCache = [] ∧
        (openSettingsDialog w true d).m_history = [] ∧
        (openSettingsDialog w true d).m_currentHistoryIndex = -1 ∧
        (openSettingsDialog w true d).imageLabel = Label.movie ∧
        (openSettingsDialog w true d).movieRunning = true ∧
        (openSettingsDialog w true d).m_apiUrl = d.apiUrl ∧
        (openSettingsDialog w true d).m_maxCacheSize = d.maxCacheSize ∧
        (openSettingsDialog w true d).m_fetchers
          = List.range' w.nextFetcher d.maxCacheSize.toNat ∧
        ((openSettingsDialog w true d).m_fetchers.length : Int) = d.maxCacheSize ∧
        (∀ f ∈ (openSettingsDialog w true d).m_fetchers, w.nextFetcher ≤ f) ∧
        ((∀ f ∈ w.m_fetchers, f < w.nextFetcher) →
          ∀ f ∈ (openSettingsDialog w true d).m_fetchers, f ∉ w.m_fetchers)) ∧
      (¬ (d.apiUrl ≠ w.m_apiUrl ∨ d.maxCacheSize ≠ w.m_maxCacheSize) →
        (openSettingsDialog w true d).m_imageCache = w.m_imageCache ∧
        (openSettingsDialog w true d).m_history = w.m_history ∧
        (openSettingsDialog w true d).m_currentHistoryIndex = w.m_currentHistoryIndex ∧
        (openSettingsDialog w true d).m_fetchers = w.m_fetchers ∧
        (openSettingsDialog w true d).nextFetcher = w.nextFetcher) := by
  constructor
  · intro hch
    have hc : settingsChanged w d = true := by
      simp only [settingsChanged, decide_eq_true_eq]; exact hch
    have hfe : (openSettingsDialog w true d).m_fetchers
        = List.range' w.nextFetcher d.maxCacheSize.toNat := by
      unfold openSettingsDialog
      simp only [if_true, hc]
      rw [fillCache_eq]
      simp [needed, resetForSettings, takeDialogValues, startLoadingAnimation]
    have hrest : (openSettingsDialog w true d).m_imageCache = [] ∧
        (openSettingsDialog w true d).m_history = [] ∧
        (openSettingsDialog w true d).m_currentHistoryIndex = -1 ∧
        (openSettingsDialog w true d).imageLabel = Label.movie ∧
        (openSettingsDialog w true d).movieRunning = true ∧
        (openSettingsDialog w true d).m_apiUrl = d.apiUrl ∧
        (openSettingsDialog w true d).m_maxCacheSize = d.maxCacheSize := by
      unfold openSettingsDialog
      simp only [if_true, hc]
      rw [fillCache_eq]
      simp [resetForSettings, takeDialogValues, startLoadingAnimation]
    obtain ⟨a1, a2, a3, a4, a5, a6, a7⟩ := hrest
    refine ⟨a1, a2, a3, a4, a5, a6, a7, hfe, ?_, ?_, ?_⟩
    · rw [hfe, List.length_range']
      omega
    · intro f hf
      rw [hfe, List.mem_range'_1] at hf
      exact hf.1
    · intro hold f hf hmem
      rw [hfe, List.mem_range'_1] at hf
      have := hold f hmem
      omega
  · intro hch
    have hc : settingsChanged w d = false := by
      simp only [settingsChanged, decide_eq_false_iff_not]; exact hch
    unfold openSettingsDialog
    simp [hc, takeDialogValues]

/-- On the history [R1, R2, R3] with capacity 3 and units 0, 1, 2: raising the capacity
to 5 resets everything and launches units 3..7; changing only theme and download
directory leaves cache, history, cursor and units alone. -/
theorem settings_change_witness :
    ((openSettingsDialog scenarioC.win true capacityFive).m_imageCache = [] ∧
        (openSettingsDialog scenarioC.win true capacityFive).m_history = [] ∧
        (openSettingsDialog scenarioC.win true capacityFive).m_currentHistoryIndex = -1 ∧
        (openSettingsDialog scenarioC.win true capacityFive).imageLabel = Label.movie ∧
        (openSettingsDialog scenarioC.win true capacityFive).movieRunning = true ∧
        (openSettingsDialog scenarioC.win true capacityFive).m_apiUrl = capacityFive.apiUrl ∧
        (openSettingsDialog scenarioC.win true capacityFive).m_maxCacheSize
          = capacityFive.maxCacheSize ∧
        (openSettingsDialog scenarioC.win true capacityFive).m_fetchers
          = List.range' scenarioC.win.nextFetcher capacityFive.maxCacheSize.toNat ∧
        ((openSettingsDialog scenarioC.win true capacityFive).m_fetchers.length : Int)
          = capacityFive.maxCacheSize ∧
        (∀ f ∈ (openSettingsDialog scenarioC.win true capacityFive).m_fetchers,
          scenarioC.win.nextFetcher ≤ f) ∧
        ((∀ f ∈ scenarioC.win.m_fetchers, f < scenarioC.win.nextFetcher) →
          ∀ f ∈ (openSettingsDialog scenarioC.win true capacityFive).m_fetchers,
            f ∉ scenarioC.win.m_fetchers)) ∧
      ((openSettingsDialog scenarioC.win true themeOnly).m_imageCache
          = scenarioC.win.m_imageCache ∧
        (openSettingsDialog scenarioC.win true themeOnly).m_history
          = scenarioC.win.m_history ∧
        (openSettingsDialog scenarioC.win true themeOnly).m_currentHistoryIndex
          = scenarioC.win.m_currentHistoryIndex ∧
        (openSettingsDialog scenarioC.win true themeOnly).m_fetchers
          = scenarioC.win.m_fetchers ∧
        (openSettingsDialog scenarioC.win true themeOnly).nextFetcher
          = scenarioC.win.nextFetcher) ∧
      (∀ f ∈ (openSettingsDialog scenarioC.win true capacityFive).m_fetchers,
        f ∉ scenarioC.win.m_fetchers) ∧
      scenarioC.win.m_fetchers = [0, 1, 2] ∧
      (openSettingsDialog scenarioC.win true capacityFive).m_fetchers = [3, 4, 5, 6, 7] :=
  ⟨(settings_change scenarioC.win capacityFive (by decide)).1 (by decide),
    (settings_change scenarioC.win themeOnly (by decide)).2 (by decide),
    ((settings_change scenarioC.win capacityFive (by decide)).1 (by decide)).2.2.2.2.2.2.2.2.2.2
      (by decide),
    by decide, by decide⟩

/-! ### C11 -/

theorem loadingOk_of_frame {w w1 : MainWindow} (h : LoadingOk w)
    (hl : w1.imageLabel = w.imageLabel) (hc : w1.m_imageCache = w.m_imageCache)
    (hh : w1.m_history = w.m_history)
    (hi : w1.m_currentHistoryIndex = w.m_currentHistoryIndex) : LoadingOk w1 := by
  unfold LoadingOk at h ⊢
  rw [hl, hc, hh, hi]; exact h

theorem loadingOk_of_label {w : MainWindow} (h : w.imageLabel ≠ Label.movie) : LoadingOk w :=
  fun hm => absurd hm h

theorem loadingOk_fillCache {w : MainWindow} (h : LoadingOk w) : LoadingOk (fillCache w) :=
  loadingOk_of_frame h (by rw [fillCache_eq]) (by rw [fillCache_eq]) (by rw [fillCache_eq])
    (by rw [fillCache_eq])

theorem showNextFromHistory_label {w w1 : MainWindow} (h : showNextFromHistory w = some w1) :
    w1.imageLabel ≠ Label.movie := by
  unfold showNextFromHistory at h
  simp only at h
  split at h
  · exact absurd h (by simp)
  · cases h
    simp [displayImage, stopLoadingAnimation]

theorem showNextFromCachePre_display {w w1 : MainWindow}
    (h : showNextFromCachePre w = some w1) :
    ∃ r rest, w.m_imageCache = r :: rest ∧ w1.m_imageCache = rest ∧
      w1.displayed = w.displayed ++ [r] ∧ w1.imageLabel = Label.pixmap r.pixmap ∧
      w1.movieRunning = false := by
  unfold showNextFromCachePre at h
  split at h
  · exact absurd h (by simp)
  · rename_i info rest hc
    simp only at h
    split at h
    · exact absurd h (by simp)
    · cases h
      rename_i c _
      refine ⟨info, rest, hc, ?_⟩
      cases c
      · simp [displayImage, stopLoadingAnimation]
      · simp only [if_true]
        unfold appendToHistory
        simp only [displayImage, stopLoadingAnimation]
        split <;> simp

theorem loadingOk_showNextImage {w w1 : MainWindow} (hs : showNextImage w = some w1) :
    LoadingOk w1 := by
  unfold showNextImage at hs
  split at hs
  · exact loadingOk_of_label (showNextFromHistory_label hs)
  · rename_i hend
    split at hs
    · unfold showNextFromCache at hs
      obtain ⟨w2, hw2, rfl⟩ := Option.map_eq_some'.1 hs
      obtain ⟨r, rest, _, _, _, hl, _⟩ := showNextFromCachePre_display hw2
      apply loadingOk_fillCache
      apply loadingOk_of_label
      rw [hl]; simp
    · rename_i hne
      cases hs
      have hempty : w.m_imageCache = [] := by
        rw [← List.isEmpty_iff]
        simpa using hne
      unfold showNextLoading reportIfExhausted
      split
      · apply loadingOk_of_label
        simp [stopLoadingAnimation]
      · apply loadingOk_fillCache
        intro _
        exact ⟨hempty, hend⟩

theorem loadingOk_showPreviousImage {w w1 : MainWindow} (h : LoadingOk w)
    (hs : showPreviousImage w = some w1) : LoadingOk w1 := by
  unfold showPreviousImage at hs
  split at hs
  · simp only at hs
    split at hs
    · exact absurd hs (by simp)
    · cases hs
      apply loadingOk_of_label
      simp [displayImage, stopLoadingAnimation]
  · split at hs <;> (cases hs; exact loadingOk_of_frame h rfl rfl rfl rfl)

theorem loadingOk_onImageFetched {w w1 : MainWindow} {p : Pixmap} {d : List Nat} {u : String}
    (hs : onImageFetched w p d u = some w1) : LoadingOk w1 := by
  unfold onImageFetched at hs
  obtain ⟨w2, hw2, rfl⟩ := Option.map_eq_some'.1 hs
  apply loadingOk_fillCache
  unfold onImageFetchedPre at hw2
  simp only at hw2
  split at hw2
  · exact loadingOk_showNextImage hw2
  · rename_i hl
    cases hw2
    exact loadingOk_of_label hl

theorem loadingOk_onFetchError {w : MainWindow} (e : String) (h : LoadingOk w) :
    LoadingOk (onFetchError w e) := by
  apply loadingOk_fillCache
  unfold onFetchErrorPre
  simp only
  split
  · apply loadingOk_of_label
    simp [stopLoadingAnimation]
  · rename_i hn
    intro hm
    exfalso
    apply hn
    have := h hm
    exact ⟨hm, by simp [this.1]⟩

theorem loadingOk_openSettingsDialog {w : MainWindow} (d : SettingsDialog) (h : LoadingOk w) :
    LoadingOk (openSettingsDialog w true d) := by
  unfold openSettingsDialog
  simp only [if_true]
  by_cases hc : settingsChanged w d = true
  · simp only [hc, if_true]
    have hbase : LoadingOk (resetForSettings (takeDialogValues w d)) := by
      intro _
      simp [resetForSettings, takeDialogValues, startLoadingAnimation]
    exact loadingOk_of_frame (loadingOk_fillCache hbase) rfl rfl rfl rfl
  · simp only [hc, Bool.false_eq_true, if_false]
    exact loadingOk_of_frame h rfl rfl rfl rfl

theorem loadingOk_step {s s1 : Sys} {e : Event} (h : LoadingOk s.win)
    (hs : step s e = some s1) : LoadingOk s1.win := by
  cases e with
  | showNext =>
    simp only [step] at hs
    obtain ⟨w, hw, rfl⟩ := Option.map_eq_some'.1 hs
    exact loadingOk_showNextImage hw
  | showPrevious =>
    simp only [step] at hs
    obtain ⟨w, hw, rfl⟩ := Option.map_eq_some'.1 hs
    exact loadingOk_showPreviousImage h hw
  | fetched f p d u =>
    simp only [step] at hs
    split at hs
    · obtain ⟨w, hw, rfl⟩ := Option.map_eq_some'.1 hs
      exact loadingOk_onImageFetched hw
    · exact absurd hs (by simp)
  | fetchFailed f e =>
    simp only [step] at hs
    split at hs
    · cases hs
      exact loadingOk_onFetchError e h
    · exact absurd hs (by simp)
  | destroyed f =>
    simp only [step] at hs
    split at hs
    · cases hs
      exact loadingOk_of_frame h rfl rfl rfl rfl
    · exact absurd hs (by simp)
  | settings d =>
    simp only [step] at hs
    split at hs
    · cases hs
      exact loadingOk_openSettingsDialog d h
    · exact absurd hs (by simp)

theorem loadingOk_run {es : List Event} {s s1 : Sys} (h : LoadingOk s.win)
    (hs : run s es = some s1) : LoadingOk s1.win := by
  induction es generalizing s with
  | nil =>
    simp only [run, Option.some.injEq] at hs
    exact hs ▸ h
  | cons e es ih =>
    simp only [run] at hs
    obtain ⟨s2, h2, h3⟩ := Option.bind_eq_some.1 hs
    exact ih (loadingOk_step h h2) h3

theorem loadingOk_of_reachable {s : Sys} (h : Reachable s) : LoadingOk s.win := by
  obtain ⟨apiUrl, c, dir, theme, dpr, es, _, _, hrun⟩ := h
  refine loadingOk_run ?_ hrun
  unfold Sys.init MainWindow.new
  apply loadingOk_fillCache
  apply loadingOk_of_label
  simp [MainWindow.beforeFill]

/-- C11: in a reachable state (capacity 1..20) with the loading movie on the label and an
empty cache, `onImageFetched` enqueues the record it builds from the result and consumes
it at once through `showNextImage`: that record is the one displayed, the cache is empty
again and the loading movie is stopped and off the label. In a reachable state whose
cache is full, `onImageFetched` leaves the cache as it is and the result appears neither
in the history nor on the screen. -/
theorem onImageFetched_while_loading (s : Sys) (h : Reachable s) (p : Pixmap) (d : List Nat)
    (u : String) :
    (s.win.imageLabel = Label.movie → s.win.m_imageCache = [] →
        (offerToCache s.win p d u).m_imageCache = [fetchedRecord s.win p d u] ∧
        ∃ w1, onImageFetched s.win p d u = some w1 ∧
          w1.displayed = s.win.displayed ++ [fetchedRecord s.win p d u] ∧
          w1.imageLabel = Label.pixmap (fetchedRecord s.win p d u).pixmap ∧
          w1.movieRunning = false ∧
          w1.m_imageCache = []) ∧
      ((s.win.m_imageCache.length : Int) = s.win.m_maxCacheSize →
        ∃ w1, onImageFetched s.win p d u = some w1 ∧
          w1.m_imageCache = s.win.m_imageCache ∧
          w1.m_history = s.win.m_history ∧
          w1.displayed = s.win.displayed ∧
          w1.imageLabel = s.win.imageLabel) := by
  obtain ⟨⟨hcap, _, _⟩, hcur, _⟩ := inv_of_reachable h
  have hload := loadingOk_of_reachable h
  constructor
  · intro hm hc
    obtain ⟨_, _, _, fh, fi, fl, _, _⟩ := offerToCache_frame s.win p d u
    have hoffer : (offerToCache s.win p d u).m_imageCache = [fetchedRecord s.win p d u] := by
      unfold offerToCache
      rw [if_pos (by rw [hc]; simpa using hcap)]
      simp [hc, fetchedRecord]
    refine ⟨hoffer, ?_⟩
    have hcuro : CursorOk (offerToCache s.win p d u) := cursorOk_of_frame hcur fh fi
    obtain ⟨w2, hw2, _⟩ := showNextFromCachePre_some hcuro (by rw [hoffer]; simp)
    obtain ⟨r, rest, e1, e2, e3, e4, e5⟩ := showNextFromCachePre_display hw2
    rw [hoffer] at e1
    obtain ⟨rfl, rfl⟩ := List.cons.inj e1
    have hend : ¬ ((offerToCache s.win p d u).m_currentHistoryIndex ≠ -1 ∧
        (offerToCache s.win p d u).m_currentHistoryIndex
          < ((offerToCache s.win p d u).m_history.length : Int) - 1) := by
      rw [fh, fi]; exact (hload hm).2
    have hshow : showNextImage (offerToCache s.win p d u) = some (fillCache w2) := by
      unfold showNextImage
      rw [if_neg hend, if_pos (by rw [hoffer]; simp)]
      simp [showNextFromCache, hw2]
    refine ⟨fillCache (fillCache w2), ?_, ?_⟩
    · unfold onImageFetched onImageFetchedPre
      simp only
      rw [if_pos (by rw [fl]; exact hm), hshow]
      rfl
    · simp only [fillCache_eq]
      obtain ⟨_, _, _, _, _, _, _, _⟩ := offerToCache_frame s.win p d u
      refine ⟨?_, e4, e5, e2⟩
      rw [e3]
      unfold offerToCache
      split <;> rfl
  · intro hfull
    have hnl : s.win.imageLabel ≠ Label.movie := by
      intro hm
      have h0 := (hload hm).1
      rw [h0] at hfull
      simp at hfull
      omega
    have hoffer : offerToCache s.win p d u = s.win := by
      unfold offerToCache
      rw [if_neg (by omega)]
    refine ⟨fillCache s.win, ?_, by rw [fillCache_eq], by rw [fillCache_eq],
      by rw [fillCache_eq], by rw [fillCache_eq]⟩
    unfold onImageFetched onImageFetchedPre
    simp only
    rw [hoffer, if_neg hnl]
    rfl

/-- A result arriving while `scenarioLoading` waits is shown at once; a result arriving
when the cache of `scenarioB` is full is dropped. -/
theorem onImageFetched_while_loading_witness :
    (Reachable scenarioLoading ∧ scenarioLoading.win.imageLabel = Label.movie ∧
      scenarioLoading.win.m_imageCache = [] ∧ Reachable scenarioB ∧
      (scenarioB.win.m_imageCache.length : Int) = scenarioB.win.m_maxCacheSize) ∧
      ((offerToCache scenarioLoading.win { bits := 9, dpr := 1 } [9] "u9").m_imageCache
          = [fetchedRecord scenarioLoading.win { bits := 9, dpr := 1 } [9] "u9"] ∧
        ∃ w1, onImageFetched scenarioLoading.win { bits := 9, dpr := 1 } [9] "u9" = some w1 ∧
          w1.displayed = scenarioLoading.win.displayed
            ++ [fetchedRecord scenarioLoading.win { bits := 9, dpr := 1 } [9] "u9"] ∧
          w1.imageLabel = Label.pixmap
            (fetchedRecord scenarioLoading.win { bits := 9, dpr := 1 } [9] "u9").pixmap ∧
          w1.movieRunning = false ∧
          w1.m_imageCache = []) ∧
      (∃ w1, onImageFetched scenarioB.win { bits := 9, dpr := 1 } [9] "u9" = some w1 ∧
        w1.m_imageCache = scenarioB.win.m_imageCache ∧
        w1.m_history = scenarioB.win.m_history ∧
        w1.displayed = scenarioB.win.displayed ∧
        w1.imageLabel = scenarioB.win.imageLabel) ∧
      (onImageFetched scenarioLoading.win { bits := 9, dpr := 1 } [9] "u9").map
          (fun w => (w.imageLabel, w.m_imageCache, w.displayed))
        = some (Label.pixmap (image 9 "u9").pixmap, [], [image 9 "u9"]) :=
  have hl : Reachable scenarioLoading :=
    ⟨"https://www.acy.moe/api/r18", 2, "Pictures", "Dark", 2,
      [Event.fetchFailed 0 "timeout", Event.fetchFailed 1 "timeout", Event.destroyed 0,
        Event.destroyed 1, Event.showNext], by decide, by decide, by decide⟩
  have hb : Reachable scenarioB :=
    ⟨"https://www.acy.moe/api/r18", 3, "Pictures", "Dark", 2,
      [arrives 0 1 "u1", arrives 1 2 "u2", arrives 2 3 "u3"], by decide, by decide, by decide⟩
  ⟨⟨hl, by decide, by decide, hb, by decide⟩,
    (onImageFetched_while_loading scenarioLoading hl { bits := 9, dpr := 1 } [9] "u9").1
      (by decide) (by decide),
    (onImageFetched_while_loading scenarioB hb { bits := 9, dpr := 1 } [9] "u9").2 (by decide),
    by decide⟩

/-! ### C12 -/

/-- What `onFetchError` does to the pool when cache and `m_fetchers` fill the capacity:
the failed unit is still in `m_fetchers`, so `fillCache` launches nothing, and once the
`destroyed` handler has removed the unit the pool is one unit short. -/
theorem onFetchError_launches_nothing (w : MainWindow) (e : String) (f : Nat)
    (hfull : (w.m_imageCache.length : Int) + (w.m_fetchers.length : Int) = w.m_maxCacheSize)
    (hf : f ∈ w.m_fetchers) :
    (onFetchError w e).m_fetchers = w.m_fetchers ∧
      (onFetchError w e).nextFetcher = w.nextFetcher ∧
      (onFetchError w e).m_imageCache = w.m_imageCache ∧
      ((onFetcherDestroyed (onFetchError w e) f).m_imageCache.length : Int)
          + ((onFetcherDestroyed (onFetchError w e) f).m_fetchers.length : Int)
        = w.m_maxCacheSize - 1 := by
  obtain ⟨a, b, c, d, _, _⟩ := onFetchErrorPre_frame w e
  have hn : (needed (onFetchErrorPre w e)).toNat = 0 := by
    unfold needed
    rw [a, b, c]
    omega
  have h1 : (onFetchError w e).m_fetchers = w.m_fetchers := by
    unfold onFetchError
    rw [fillCache_eq, hn]
    simp [c]
  have h2 : (onFetchError w e).nextFetcher = w.nextFetcher := by
    unfold onFetchError
    rw [fillCache_eq, hn]
    simp [d]
  have h3 : (onFetchError w e).m_imageCache = w.m_imageCache := by
    unfold onFetchError
    rw [fillCache_eq]
    exact b
  refine ⟨h1, h2, h3, ?_⟩
  unfold onFetcherDestroyed
  simp only
  rw [h1, h3, List.length_erase_of_mem hf]
  have hpos : 0 < w.m_fetchers.length := List.length_pos_of_mem hf
  omega

/-- C12 on the code, capacity 1 right after start-up: the cache is empty and unit 0 is
fetching, so cache and pool fill the capacity. When unit 0 fails, the `fillCache` call
of `onFetchError` launches no unit; after the `destroyed` handler has removed unit 0,
`m_fetchers` is empty and size(cache) + size(`m_fetchers`) is 0, not 1; the label still
reads 'Loading image...' and no fetch is under way. -/
theorem onFetchError_no_replacement :
    Reachable scenarioOneUnit ∧
      scenarioOneUnit.win.m_maxCacheSize = 1 ∧
      scenarioOneUnit.win.m_imageCache = [] ∧
      scenarioOneUnit.win.m_fetchers = [0] ∧
      (onFetchError scenarioOneUnit.win "timeout").m_fetchers = [0] ∧
      (onFetchError scenarioOneUnit.win "timeout").nextFetcher
        = scenarioOneUnit.win.nextFetcher ∧
      run scenarioOneUnit [Event.fetchFailed 0 "timeout", Event.destroyed 0]
        = some scenarioAfterFailure ∧
      scenarioAfterFailure.win.m_imageCache = [] ∧
      scenarioAfterFailure.win.m_fetchers = [] ∧
      scenarioAfterFailure.win.m_maxCacheSize = 1 ∧
      scenarioAfterFailure.win.imageLabel = Label.text "Loading image..." ∧
      ¬ ((scenarioAfterFailure.win.m_imageCache.length : Int)
          + (scenarioAfterFailure.win.m_fetchers.length : Int)
        = scenarioAfterFailure.win.m_maxCacheSize) :=
  ⟨⟨"https://www.acy.moe/api/r18", 1, "Pictures", "Dark", 2, [], by decide, by decide, rfl⟩,
    by decide⟩

/-! ### C13 -/

theorem histAt_last (h : List ImageInfo) :
    histAt h ((h.length : Int) - 1) = h.getLast? := by
  cases h with
  | nil => simp [histAt]
  | cons a t =>
    have h0 : (0 : Int) ≤ ((a :: t).length : Int) - 1 := by
      simp only [List.length_cons]; push_cast; omega
    have h1 : (((a :: t).length : Int) - 1).toNat = (a :: t).length - 1 := by
      simp only [List.length_cons]; push_cast; omega
    unfold histAt
    rw [if_pos h0, h1, List.getLast?_eq_getElem?]

/-- What `showNextImage` does with a cache record whose URL is that of the last history
entry, the cursor being on that entry: the record is displayed and dropped from the
cache, the history and the cursor stay, so `m_history[m_currentHistoryIndex]` is still
the old entry. -/
theorem showNext_same_url (w : MainWindow) (r last : ImageInfo) (rest : List ImageInfo)
    (hcache : w.m_imageCache = r :: rest)
    (hend : w.m_currentHistoryIndex = (w.m_history.length : Int) - 1)
    (hlast : w.m_history.getLast? = some last) (hurl : last.imageUrl = r.imageUrl) :
    ∃ w1, showNextImage w = some w1 ∧ w1.displayed = w.displayed ++ [r] ∧
      w1.imageLabel = Label.pixmap r.pixmap ∧
      histAt w1.m_history w1.m_currentHistoryIndex = some last := by
  obtain ⟨w1, hs, a, b, c, d⟩ := showNext_takes_front hcache hend
  rw [hlast] at c
  simp only [hurl, ne_eq, not_true_eq_false, if_false] at c
  have hnr : ¬ (w.m_currentHistoryIndex ≠ -1 ∧
      w.m_currentHistoryIndex < (w.m_history.length : Int) - 1) := by omega
  have hl : w1.imageLabel = Label.pixmap r.pixmap := by
    unfold showNextImage at hs
    rw [if_neg hnr, if_pos (by simp [hcache])] at hs
    unfold showNextFromCache at hs
    obtain ⟨w2, hw2, rfl⟩ := Option.map_eq_some'.1 hs
    obtain ⟨r2, rest2, e1, _, _, e4, _⟩ := showNextFromCachePre_display hw2
    rw [hcache] at e1
    obtain ⟨rfl, _⟩ := List.cons.inj e1
    rw [fillCache_eq]
    exact e4
  refine ⟨w1, hs, a, hl, ?_⟩
  rw [d, histAt_last, c, hlast]

/-- C13 on the code: two results A and B fetched from the same URL are in the cache and
nothing has been shown yet. The first `showNextImage` displays A and makes it
`m_history[0]`. The second displays B, which is on the label afterwards, but the history
stays [A] with the cursor at 0: `m_history[m_currentHistoryIndex]` is A, and
`downloadCurrentImage` and `copyImageToClipboard` take the bytes and the pixmap of A. -/
theorem displayed_not_current_record :
    Reachable scenarioSameUrl ∧
      scenarioSameUrl.win.m_imageCache = [image 1 "u", image 2 "u"] ∧
      run scenarioSameUrl [Event.showNext, Event.showNext] = some scenarioSameUrlShown ∧
      scenarioSameUrlShown.win.displayed = [image 1 "u", image 2 "u"] ∧
      scenarioSameUrlShown.win.imageLabel = Label.pixmap (image 2 "u").pixmap ∧
      histAt scenarioSameUrlShown.win.m_history scenarioSameUrlShown.win.m_currentHistoryIndex
        = some (image 1 "u") ∧
      image 1 "u" ≠ image 2 "u" ∧
      downloadedBytes scenarioSameUrlShown.win = some (image 1 "u").imageData ∧
      downloadedBytes scenarioSameUrlShown.win ≠ some (image 2 "u").imageData ∧
      clipboardPixmap scenarioSameUrlShown.win = some (image 1 "u").pixmap ∧
      clipboardPixmap scenarioSameUrlShown.win ≠ some (image 2 "u").pixmap :=
  ⟨⟨"https://www.acy.moe/api/r18", 2, "Pictures", "Dark", 2,
      [arrives 0 1 "u", arrives 1 2 "u"], by decide, by decide, by decide⟩,
    by decide⟩
end AcyViewer
